import Mathlib

/-!
Verification of the Matomo-to-Umami migration engine (src/matomo2umami.py).

The Python source is shallowly embedded: Python `str` values become Lean
`String` (Python slicing, `split`, `join`, `lower`, `upper`, `startswith`
and the `in` operator are modelled by executable functions on the
underlying `List Char`, which matches Python's code-point semantics for
the ASCII data these claims exercise), Python dicts for visit/action
records become structures whose optional keys are `Option` fields, and
the per-visit `try/except` of the migration loop becomes explicit
`Except`-style control flow that keeps all state mutations performed
before the failure point, exactly as the interpreter does.

External libraries used by the source (`hashlib.md5`/`uuid.UUID`
formatting, `uuid.uuid4`, `urllib.parse.urlparse`, `tldextract`,
`datetime.fromtimestamp`) are modelled as parameters of the embedding
(the `Libs` structure): every theorem below is proved for an arbitrary
interpretation of those functions, and `uuid.uuid4` draws from an
explicit counter-indexed supply so that the model stays deterministic
and executable.
-/

namespace M2U

/-- Single-quote character (code point 39), the quote used by SQL string literals. -/
def qc : Char := Char.ofNat 39

/-- NUL character (code point 0), removed by the sanitizer. -/
def nulChar : Char := Char.ofNat 0

/-- The one-character string holding the single quote. -/
def sq : String := String.mk [qc]

/-! ## Python string primitives -/

/-- Python `s[:n]` slicing by code points. -/
def pyTrunc (n : Nat) (s : String) : String := String.mk (s.data.take n)

/-- Python `s.lower()` (ASCII-accurate). -/
def pyLower (s : String) : String := String.mk (s.data.map Char.toLower)

/-- Python `s.upper()` (ASCII-accurate). -/
def pyUpper (s : String) : String := String.mk (s.data.map Char.toUpper)

/-- Python `s.startswith(p)`. -/
def pyStartsWith (s p : String) : Bool := p.data.isPrefixOf s.data

/-- Helper for Python `needle in hay`: scan every suffix of the haystack. -/
def pyInAux (needle : List Char) : List Char → Bool
  | [] => needle.isEmpty
  | c :: t => needle.isPrefixOf (c :: t) || pyInAux needle t

/-- Python substring test `needle in hay`. -/
def pyIn (needle hay : String) : Bool := pyInAux needle.data hay.data

/-- Helper for Python `s.split(sep)` on the character list. -/
def pySplitAux (sep : Char) : List Char → List (List Char)
  | [] => [[]]
  | c :: t =>
    match pySplitAux sep t with
    | [] => [[]]
    | h :: r => if c = sep then [] :: h :: r else (c :: h) :: r

/-- Python `s.split(sep)` for a one-character separator. -/
def pySplit (sep : Char) (s : String) : List String :=
  (pySplitAux sep s.data).map String.mk

/-- Python truthiness of an optional string fetched from a dict:
`None` and the empty string are falsy. -/
def pyTruthy (o : Option String) : Bool :=
  match o with
  | none => false
  | some s => decide (s ≠ "")

/-! ## safe_sql_value (src/matomo2umami.py lines 35-46) -/

/-- A Python scalar as it can reach `safe_sql_value`: `None`, `str`,
`int`, `bool`, or any other object (`objV s` is an object whose
`str()` is `s`, e.g. a `uuid.UUID`). -/
inductive PyVal where
  | noneV : PyVal
  | strV (s : String) : PyVal
  | intV (n : Int) : PyVal
  | boolV (b : Bool) : PyVal
  | objV (s : String) : PyVal
deriving DecidableEq

/-- Python `str(value)` for the modelled scalars. -/
def pyStr : PyVal → String
  | .noneV => "None"
  | .strV s => s
  | .intV n => toString n
  | .boolV b => if b then "True" else "False"
  | .objV s => s

/-- Test `value is None`. -/
def isNoneB : PyVal → Bool
  | .noneV => true
  | _ => false

/-- Test `isinstance(value, str)`. -/
def isStrB : PyVal → Bool
  | .strV _ => true
  | _ => false

/-- Test `isinstance(value, (int, float))`.  In Python `bool` is a
subclass of `int`, so boolean values satisfy this test. -/
def isIntFloatB : PyVal → Bool
  | .intV _ => true
  | .boolV _ => true
  | _ => false

/-- Test `isinstance(value, bool)`. -/
def isBoolB : PyVal → Bool
  | .boolV _ => true
  | _ => false

/-- Python `value.replace("'", "''")` on the character list: every
single quote is doubled. -/
def escQ (l : List Char) : List Char :=
  l.flatMap fun c => if c = qc then [qc, qc] else [c]

/-- Python `value.replace(chr(0), '')` on the character list: every NUL
is removed. -/
def dropNulL (l : List Char) : List Char :=
  l.filter fun c => c ≠ nulChar

/-- Embedding of `safe_sql_value` (lines 35-46).  The branch order is
the source's `if` chain; the `bool` branch is unreachable because a
Python `bool` already satisfies `isinstance(value, (int, float))`. -/
def safe_sql_value (v : PyVal) : String :=
  if isNoneB v then "NULL"
  else if isStrB v then sq ++ String.mk (dropNulL (escQ (pyStr v).data)) ++ sq
  else if isIntFloatB v then pyStr v
  else if isBoolB v then
    (match v with
     | .boolV b => if b then "true" else "false"
     | _ => "")
  else sq ++ pyStr v ++ sq

/-- Lift an optional string field to the scalar fed to `safe_sql_value`. -/
def optPy : Option String → PyVal
  | none => .noneV
  | some s => .strV s

/-! ## Specification-side view of the string sanitizer (claim C4) -/

/-- The body of the literal as the spec describes it: one pass over the
input, doubling each single quote, deleting each NUL, keeping every
other character unchanged. -/
def specBody (l : List Char) : List Char :=
  l.flatMap fun c => if c = qc then [qc, qc] else if c = nulChar then [] else [c]

/-- SQL string-literal body scanner: reads characters until the closing
quote, decoding a doubled quote as one literal quote; returns the
decoded body and the input remaining after the closing quote. -/
def parseBody : List Char → Option (List Char × List Char)
  | [] => none
  | c :: rest =>
    if c = qc then
      match rest with
      | [] => some ([], [])
      | c2 :: rest2 =>
        if c2 = qc then (parseBody rest2).map (fun p => (qc :: p.1, p.2))
        else some ([], rest)
    else (parseBody rest).map (fun p => (c :: p.1, p.2))

/-- Accept a complete SQL string literal: an opening quote, a body, a
closing quote, and nothing after it; returns the decoded body. -/
def parseLit (l : List Char) : Option (List Char) :=
  match l with
  | c :: rest =>
    if c = qc then
      match parseBody rest with
      | some (b, []) => some b
      | _ => none
    else none
  | [] => none

theorem data_append (a b : String) : (a ++ b).data = a.data ++ b.data := by
  cases a; cases b; rfl

theorem specBody_cons (c : Char) (t : List Char) :
    specBody (c :: t)
      = (if c = qc then [qc, qc] else if c = nulChar then [] else [c]) ++ specBody t := by
  simp [specBody]

theorem dropNulL_escQ (l : List Char) : dropNulL (escQ l) = specBody l := by
  induction l with
  | nil => rfl
  | cons c t ih =>
    have hesc : escQ (c :: t) = (if c = qc then [qc, qc] else [c]) ++ escQ t := by
      simp [escQ]
    rw [hesc, specBody_cons, dropNulL, List.filter_append]
    show dropNulL _ ++ dropNulL (escQ t) = _
    rw [ih]
    by_cases hq : c = qc
    · subst hq
      have h1 : (if qc = qc then [qc, qc] else [qc]) = [qc, qc] := by decide
      have h2 : (if qc = qc then [qc, qc] else if qc = nulChar then [] else [qc])
          = [qc, qc] := by decide
      have h3 : dropNulL [qc, qc] = [qc, qc] := by decide
      rw [h1, h2, h3]
    · by_cases hn : c = nulChar
      · subst hn
        have h1 : (if nulChar = qc then [qc, qc] else [nulChar]) = [nulChar] := by decide
        have h2 : (if nulChar = qc then [qc, qc] else if nulChar = nulChar then []
            else [nulChar]) = [] := by decide
        have h3 : dropNulL [nulChar] = [] := by decide
        rw [h1, h2, h3, List.nil_append]
      · have h3 : dropNulL [c] = [c] := by
          simp [dropNulL, List.filter, hn]
        simp only [if_neg hq, if_neg hn, h3]

theorem parseBody_q_end : parseBody [qc] = some ([], []) := by
  rw [parseBody.eq_def]; simp

theorem parseBody_qq (rest : List Char) :
    parseBody (qc :: qc :: rest) = (parseBody rest).map (fun p => (qc :: p.1, p.2)) := by
  rw [parseBody.eq_def]; simp

theorem parseBody_cons_ne (c : Char) (h : ¬ c = qc) (rest : List Char) :
    parseBody (c :: rest) = (parseBody rest).map (fun p => (c :: p.1, p.2)) := by
  rw [parseBody.eq_def]; simp [h]

theorem parseBody_specBody (l : List Char) :
    parseBody (specBody l ++ [qc]) = some (l.filter (fun c => c ≠ nulChar), []) := by
  induction l with
  | nil =>
    show parseBody [qc] = _
    rw [parseBody_q_end]; rfl
  | cons c t ih =>
    rw [specBody_cons]
    by_cases hq : c = qc
    · subst hq
      have h2 : (if qc = qc then [qc, qc] else if qc = nulChar then [] else [qc])
          = [qc, qc] := by decide
      rw [h2]
      show parseBody (qc :: qc :: (specBody t ++ [qc])) = _
      rw [parseBody_qq, ih]
      simp only [List.filter_cons]
      rw [if_pos (by decide : (decide (qc ≠ nulChar)) = true)]
      rfl
    · by_cases hn : c = nulChar
      · subst hn
        have h2 : (if nulChar = qc then [qc, qc] else if nulChar = nulChar then []
            else [nulChar]) = [] := by decide
        rw [h2, List.nil_append, ih]
        simp only [List.filter_cons]
        rw [if_neg (by decide : ¬ (decide (nulChar ≠ nulChar)) = true)]
      · simp only [if_neg hq, if_neg hn]
        show parseBody (c :: (specBody t ++ [qc])) = _
        rw [parseBody_cons_ne c hq, ih]
        simp only [List.filter_cons]
        rw [if_pos (decide_eq_true hn)]
        rfl

theorem safe_strV_data (s : String) :
    (safe_sql_value (.strV s)).data = qc :: (specBody s.data ++ [qc]) := by
  show (sq ++ String.mk (dropNulL (escQ (pyStr (.strV s)).data)) ++ sq).data = _
  rw [data_append, data_append]
  simp only [sq, pyStr]
  rw [dropNulL_escQ]
  rfl

/-- C4: for every input string, `safe_sql_value` yields a single-quoted
literal whose body is the input with every single quote doubled and
every NUL removed and no other character altered; the result scans as
one complete well-formed SQL string literal, decoding back to the input
minus its NULs. -/
theorem safe_sql_value_string_contract (s : String) :
    (safe_sql_value (.strV s)).data = qc :: (specBody s.data ++ [qc])
    ∧ parseLit (safe_sql_value (.strV s)).data
        = some (s.data.filter (fun c => c ≠ nulChar)) := by
  have hdata := safe_strV_data s
  refine ⟨hdata, ?_⟩
  rw [hdata]
  have hq : parseLit (qc :: (specBody s.data ++ [qc]))
      = match parseBody (specBody s.data ++ [qc]) with
        | some (b, []) => some b
        | _ => none := by
    rw [parseLit.eq_def]; simp
  rw [hq, parseBody_specBody]

/-- C6 evidence: because a Python `bool` is an instance of `int`, the
`isinstance(value, (int, float))` branch of `safe_sql_value` captures
booleans first and returns `str(True)`/`str(False)`; the dedicated
boolean branch returning `true`/`false` is dead code. -/
theorem safe_sql_value_bool_behavior :
    safe_sql_value (.boolV true) = "True"
    ∧ safe_sql_value (.boolV false) = "False"
    ∧ "True" ≠ "true" ∧ "False" ≠ "false" := by
  refine ⟨rfl, rfl, by decide, by decide⟩

/-! ## Batch writer (write_batch_insert, lines 217-232, and the
append-then-flush discipline of the migration loop, lines 459-503) -/

/-- One row of an INSERT statement: the already-sanitized cell strings. -/
abbrev Row := List String

/-- One flushed INSERT statement: table name, column list, rows. -/
abbrev Stmt := String × List String × List Row

/-- Fuel-indexed worker for the slicing loop; the fuel starts at the
list length and never runs out on the calls `chunksB` makes. -/
def chunksGo (b : Nat) : Nat → List α → List (List α)
  | _, [] => []
  | 0, c :: t => [c :: t]
  | fuel + 1, c :: t => (c :: t.take b) :: chunksGo b fuel (t.drop b)

/-- The slicing loop `for i in range(0, len(values_batch), batch_size)`:
cut a list into consecutive slices of `bs` elements (the last may be
shorter).  A step of `0` would raise `ValueError` in Python; the CLI
validates `batch_size >= 1`, so that branch is unreachable. -/
def chunksB (bs : Nat) (l : List α) : List (List α) :=
  match bs with
  | 0 => []
  | b + 1 => chunksGo b l.length l

theorem chunksGo_nil (b f : Nat) : chunksGo b f ([] : List α) = [] := by
  cases f <;> rfl

theorem chunksGo_fuel (b : Nat) : ∀ (f1 f2 : Nat) (l : List α),
    l.length ≤ f1 → l.length ≤ f2 → chunksGo b f1 l = chunksGo b f2 l := by
  intro f1
  induction f1 with
  | zero =>
    intro f2 l h1 h2
    have hl : l = [] := List.eq_nil_of_length_eq_zero (by omega)
    subst hl
    rw [chunksGo_nil, chunksGo_nil]
  | succ k ih =>
    intro f2 l h1 h2
    cases l with
    | nil => rw [chunksGo_nil, chunksGo_nil]
    | cons c t =>
      cases f2 with
      | zero => simp at h2
      | succ m =>
        show (c :: t.take b) :: chunksGo b k (t.drop b)
            = (c :: t.take b) :: chunksGo b m (t.drop b)
        congr 1
        refine ih m (t.drop b) ?_ ?_
        · rw [List.length_drop]; simp only [List.length_cons] at h1; omega
        · rw [List.length_drop]; simp only [List.length_cons] at h2; omega

theorem chunksB_nil (bs : Nat) : chunksB bs ([] : List α) = [] := by
  cases bs <;> rfl

theorem chunksB_cons (b : Nat) (c : α) (t : List α) :
    chunksB (b + 1) (c :: t) = (c :: t.take b) :: chunksB (b + 1) (t.drop b) := by
  show chunksGo b (c :: t).length (c :: t)
      = (c :: t.take b) :: chunksGo b (t.drop b).length (t.drop b)
  show (c :: t.take b) :: chunksGo b t.length (t.drop b) = _
  congr 1
  refine chunksGo_fuel b t.length (t.drop b).length (t.drop b) ?_ (le_refl _)
  rw [List.length_drop]; omega

/-- Embedding of `write_batch_insert` (lines 217-232): an empty buffer
writes nothing, otherwise one statement per `batch_size`-slice, rows in
slice order. -/
def write_batch_insert (table : String) (columns : List String) (values_batch : List Row)
    (batch_size : Nat) : List Stmt :=
  if values_batch.isEmpty then []
  else (chunksB batch_size values_batch).map (fun batch => (table, columns, batch))

theorem write_batch_insert_eq (table : String) (columns : List String)
    (values_batch : List Row) (bs : Nat) :
    write_batch_insert table columns values_batch bs
      = (chunksB bs values_batch).map (fun batch => (table, columns, batch)) := by
  cases values_batch with
  | nil => simp [write_batch_insert, chunksB_nil]
  | cons r t => simp [write_batch_insert]

/-- The per-append step of the migration loop: `batch.append(values)`
followed by `if len(batch) >= batch_size: write_batch_insert(...);
batch = []`.  The output statement stream is threaded through. -/
def appendFlush (table : String) (columns : List String) (bs : Nat)
    (buf : List Row) (out : List Stmt) (row : Row) : List Row × List Stmt :=
  let buf1 := buf ++ [row]
  if bs ≤ buf1.length then ([], out ++ write_batch_insert table columns buf1 bs)
  else (buf1, out)

/-- Run the append-then-flush loop over a row sequence. -/
def runBuf (table : String) (columns : List String) (bs : Nat)
    (buf : List Row) (out : List Stmt) : List Row → List Row × List Stmt
  | [] => (buf, out)
  | r :: rs =>
    let p := appendFlush table columns bs buf out r
    runBuf table columns bs p.1 p.2 rs

/-- The full per-table emission discipline of the migration run: buffer
each row, flush at the threshold, and flush any nonempty remainder at
the end (lines 499-503). -/
def bufferRun (table : String) (columns : List String) (bs : Nat) (rows : List Row) :
    List Stmt :=
  let p := runBuf table columns bs [] [] rows
  p.2 ++ write_batch_insert table columns p.1 bs

theorem chunksB_flatten (b : Nat) : ∀ (n : Nat) (l : List α), l.length ≤ n →
    (chunksB (b + 1) l).flatten = l := by
  intro n
  induction n with
  | zero =>
    intro l h
    cases l with
    | nil => simp [chunksB_nil]
    | cons c t => simp at h
  | succ n ih =>
    intro l h
    cases l with
    | nil => simp [chunksB_nil]
    | cons c t =>
      rw [chunksB_cons]
      rw [List.flatten_cons]
      rw [ih (t.drop b) (by simp [List.length_drop]; simp at h; omega)]
      simp [List.take_append_drop]

theorem chunksB_length (b : Nat) : ∀ (n : Nat) (l : List α), l.length ≤ n →
    (chunksB (b + 1) l).length = (l.length + b) / (b + 1) := by
  intro n
  induction n with
  | zero =>
    intro l h
    cases l with
    | nil =>
      rw [chunksB_nil]
      show 0 = (0 + b) / (b + 1)
      rw [Nat.zero_add, Nat.div_eq_of_lt (by omega)]
    | cons c t => simp at h
  | succ n ih =>
    intro l h
    cases l with
    | nil =>
      rw [chunksB_nil]
      show 0 = (0 + b) / (b + 1)
      rw [Nat.zero_add, Nat.div_eq_of_lt (by omega)]
    | cons c t =>
      rw [chunksB_cons]
      simp only [List.length_cons]
      rw [ih (t.drop b) (by simp [List.length_drop]; simp at h; omega)]
      rw [List.length_drop]
      have hnum : t.length + 1 + b = t.length + (b + 1) := by omega
      rw [hnum, Nat.add_div_right _ (by omega : 0 < b + 1)]
      by_cases hb : b ≤ t.length
      · have heq : t.length - b + b = t.length := by omega
        rw [heq]
      · have h0 : t.length - b = 0 := by omega
        rw [h0, Nat.zero_add, Nat.div_eq_of_lt (by omega : b < b + 1),
          Nat.div_eq_of_lt (by omega : t.length < b + 1)]

theorem chunksB_mem_le (b : Nat) : ∀ (n : Nat) (l : List α), l.length ≤ n →
    ∀ c ∈ chunksB (b + 1) l, c.length ≤ b + 1 := by
  intro n
  induction n with
  | zero =>
    intro l h c hc
    cases l with
    | nil => rw [chunksB_nil] at hc; simp at hc
    | cons x t => simp at h
  | succ n ih =>
    intro l h c hc
    cases l with
    | nil => rw [chunksB_nil] at hc; simp at hc
    | cons x t =>
      rw [chunksB_cons] at hc
      rcases List.mem_cons.mp hc with h1 | h2
      · subst h1
        simp only [List.length_cons, List.length_take]
        omega
      · exact ih (t.drop b) (by simp [List.length_drop]; simp at h; omega) c h2

theorem chunksB_small (b : Nat) (c : α) (t : List α) (h : t.length ≤ b) :
    chunksB (b + 1) (c :: t) = [c :: t] := by
  rw [chunksB_cons, List.take_of_length_le h, List.drop_eq_nil_of_le (by omega), chunksB_nil]

theorem chunksB_exact (b : Nat) (l rest : List α) (h : l.length = b + 1) :
    chunksB (b + 1) (l ++ rest) = l :: chunksB (b + 1) rest := by
  cases l with
  | nil => simp at h
  | cons c t =>
    have ht : t.length = b := by simp at h; omega
    rw [List.cons_append, chunksB_cons]
    have h1 : (t ++ rest).take b = t := by
      rw [← ht, List.take_left]
    have h2 : (t ++ rest).drop b = rest := by
      rw [← ht, List.drop_left]
    rw [h1, h2]

theorem runBuf_cons (table : String) (cols : List String) (bs : Nat)
    (buf : List Row) (out : List Stmt) (r : Row) (rs : List Row) :
    runBuf table cols bs buf out (r :: rs)
      = runBuf table cols bs (appendFlush table cols bs buf out r).1
          (appendFlush table cols bs buf out r).2 rs := rfl

theorem runBuf_spec (table : String) (cols : List String) (b : Nat) :
    ∀ (rows buf : List Row) (out : List Stmt), buf.length < b + 1 →
    (runBuf table cols (b + 1) buf out rows).2
        ++ write_batch_insert table cols (runBuf table cols (b + 1) buf out rows).1 (b + 1)
      = out ++ (chunksB (b + 1) (buf ++ rows)).map (fun batch => (table, cols, batch)) := by
  intro rows
  induction rows with
  | nil =>
    intro buf out h
    show out ++ write_batch_insert table cols buf (b + 1) = _
    rw [write_batch_insert_eq]
    simp
  | cons r rs ih =>
    intro buf out h
    rw [runBuf_cons]
    by_cases hf : b + 1 ≤ (buf ++ [r]).length
    · have happ : appendFlush table cols (b + 1) buf out r
          = ([], out ++ write_batch_insert table cols (buf ++ [r]) (b + 1)) := by
        simp only [appendFlush, if_pos hf]
      rw [happ]
      have hlen : (buf ++ [r]).length = b + 1 := by
        simp at hf ⊢; omega
      rw [ih [] (out ++ write_batch_insert table cols (buf ++ [r]) (b + 1))
        (by simp)]
      rw [write_batch_insert_eq]
      have hstep : buf ++ r :: rs = (buf ++ [r]) ++ rs := by simp
      rw [hstep, chunksB_exact b (buf ++ [r]) rs hlen]
      rcases hsm : buf ++ [r] with _ | ⟨x, t⟩
      · simp at hsm
      · have htl : t.length ≤ b := by
          have hx := hlen; rw [hsm] at hx; simp at hx; omega
        rw [chunksB_small b x t htl]
        simp
    · have happ : appendFlush table cols (b + 1) buf out r = (buf ++ [r], out) := by
        simp only [appendFlush, if_neg hf]
      rw [happ]
      rw [ih (buf ++ [r]) out (by simp at hf ⊢; omega)]
      simp

/-- The five-row example used by the spec (threshold 2). -/
def c2rows : List Row := [["r1"], ["r2"], ["r3"], ["r4"], ["r5"]]

/-- C2: for every table, threshold `b >= 1` and buffered row sequence,
the append-then-flush discipline emits exactly `ceil(n/b)` INSERT
statements, each of at most `b` rows, whose concatenation is the
original sequence in order (so no row is ever split across flushes);
with threshold 2 and five rows this is three statements of 2, 2 and 1
rows. -/
theorem batch_writer_contract :
    (∀ (table : String) (cols : List String) (b : Nat) (rows : List Row), 1 ≤ b →
      ((bufferRun table cols b rows).map (fun s => s.2.2)).flatten = rows
      ∧ (bufferRun table cols b rows).length = (rows.length + b - 1) / b
      ∧ ∀ s ∈ bufferRun table cols b rows, s.2.2.length ≤ b)
    ∧ (bufferRun "t" [] 2 c2rows).map (fun s => s.2.2)
        = [[["r1"], ["r2"]], [["r3"], ["r4"]], [["r5"]]] := by
  constructor
  · intro table cols b rows hb
    rcases Nat.exists_eq_add_of_le hb with ⟨b1, rfl⟩
    rw [Nat.add_comm 1 b1]
    have hrun : bufferRun table cols (b1 + 1) rows
        = (chunksB (b1 + 1) rows).map (fun batch => (table, cols, batch)) := by
      show (runBuf table cols (b1 + 1) [] [] rows).2
          ++ write_batch_insert table cols (runBuf table cols (b1 + 1) [] [] rows).1 (b1 + 1)
        = _
      rw [runBuf_spec table cols b1 rows [] [] (by simp)]
      simp
    refine ⟨?_, ?_, ?_⟩
    · rw [hrun]
      have hcomp : ∀ (cs : List (List Row)),
          (cs.map (fun batch => ((table, cols, batch) : Stmt))).map (fun s => s.2.2) = cs := by
        intro cs
        induction cs with
        | nil => rfl
        | cons x xs ih => simp only [List.map_cons, ih]
      rw [hcomp, chunksB_flatten b1 rows.length rows (le_refl _)]
    · rw [hrun, List.length_map, chunksB_length b1 rows.length rows (le_refl _)]
      have harith : rows.length + (b1 + 1) - 1 = rows.length + b1 := by omega
      rw [harith]
    · intro s hs
      rw [hrun] at hs
      rcases List.mem_map.mp hs with ⟨batch, hbm, rfl⟩
      exact chunksB_mem_le b1 rows.length rows (le_refl _) batch hbm
  · rfl

/-- Closed instance of C2's hypotheses: threshold 2 with the five-row
sequence reassembles the rows in order. -/
theorem batch_writer_contract_witness :
    (1 ≤ 2) ∧ ((bufferRun "t" [] 2 c2rows).map (fun s => s.2.2)).flatten = c2rows :=
  ⟨by decide, (batch_writer_contract.1 "t" [] 2 c2rows (by decide)).1⟩

/-! ## Data model: Visit / Action records, external library parameters -/

/-- A Matomo action record.  `Option` fields model Python dict keys
that may be absent; `type` is read with `.get('type')`, `url` with
`.get('url', '')`, while `timestamp` is read with indexing
`action['timestamp']` and therefore raises `KeyError` when absent. -/
structure Action where
  type : Option String
  url : Option String
  timestamp : Option Int
  pageTitle : Option String
  title : Option String
deriving DecidableEq

/-- A Matomo visit record.  `idVisit` is always read (the loop indexes
`visit_data['idVisit']` before anything else); `firstActionTimestamp`
is read with indexing and raises when absent; the remaining fields are
read with `.get`. -/
structure Visit where
  idVisit : String
  firstActionTimestamp : Option Int
  browserName : Option String
  operatingSystemName : Option String
  operatingSystem : Option String
  deviceType : Option String
  countryCode : Option String
  regionCode : Option String
  city : Option String
  resolution : Option String
  languageCode : Option String
  referrerUrl : Option String
  actionDetails : Option (List Action)
deriving DecidableEq

/-- Interpretations of the external library functions the source calls.
`md5uuid seed` models `str(uuid.UUID(hashlib.md5(seed.encode()).hexdigest()))`
(a pure function of the seed); `uuid4 k` is the k-th value drawn from
`uuid.uuid4()` as a string; `upath`/`uquery` are
`urlparse(u).path`/`urlparse(u).query`; `tld u` is `tldextract.extract(u)`
as a (domain, suffix) pair, `none` when it raises; `iso t` is
`datetime.fromtimestamp(t).isoformat()`. -/
structure Libs where
  md5uuid : String → String
  uuid4 : Nat → String
  upath : String → String
  uquery : String → String
  tld : String → Option (String × String)
  iso : Int → String

/-- Embedding of `generate_uuid` (lines 26-32).  The seeded branch is a
pure function of the seed; an absent or empty seed draws a fresh random
UUID, consuming the counter. -/
def generate_uuid (L : Libs) (ctr : Nat) (seed_value : Option String) : String × Nat :=
  match seed_value with
  | some s => if s ≠ "" then (L.md5uuid s, ctr) else (L.uuid4 ctr, ctr + 1)
  | none => (L.uuid4 ctr, ctr + 1)

/-- Embedding of `extract_base_domain` (lines 18-23): `domain.suffix`,
`None` when the extraction raises. -/
def extract_base_domain (L : Libs) (url : String) : Option String :=
  (L.tld url).map (fun ds => ds.1 ++ "." ++ ds.2)

/-- Embedding of `parse_timestamp` (lines 49-52): the ISO string is
interpolated into quotes with an f-string, with no escaping. -/
def parse_timestamp (L : Libs) (t : Int) : String := sq ++ L.iso t ++ sq

/-! ## parse_user_agent_info (lines 55-111) -/

/-- The browser-name signature chain (lines 57-77). -/
def classifyBrowser (browser : String) : String :=
  if pyIn "chrome" browser then "chrome"
  else if pyIn "edge" browser then "edge-chromium"
  else if pyIn "firefox" browser then "firefox"
  else if pyIn "opera" browser then "opera"
  else if pyIn "mobile safari" browser then "ios"
  else if pyIn "safari" browser then "safari"
  else if pyIn "yandex" browser then "yandexbrowser"
  else if pyIn "samsung" browser then "samsung"
  else if pyIn "google search app" browser then "chromium-webview"
  else if pyIn "silk" browser then "silk"
  else browser

/-- The OS signature chain (lines 79-97); an unmatched Windows detail
string leaves the lowercased raw OS name in place. -/
def classifyOs (os_info os_detail_info : String) : String :=
  if pyIn "linux" os_info || pyIn "ubuntu" os_info then "Linux"
  else if pyIn "chrome" os_info then "Chrome OS"
  else if pyIn "windows" os_info then
    (if pyIn "windows 7" os_detail_info then "Windows 7"
     else if pyIn "windows 8.1" os_detail_info then "Windows 8.1"
     else if pyIn "windows 10" os_detail_info || pyIn "windows 11" os_detail_info
       then "Windows 10"
     else os_info)
  else if pyIn "ios" os_info then "iOS"
  else if pyIn "mac" os_info then "Mac OS"
  else if pyIn "android" os_info then "Android OS"
  else os_info

/-- The device-type signature chain (lines 99-105). -/
def classifyDevice (device : String) : String :=
  if pyIn "desktop" device then "desktop"
  else if pyIn "tablet" device then "tablet"
  else if pyIn "smartphone" device || pyIn "phablet" device then "mobile"
  else device

/-- Embedding of `parse_user_agent_info` (lines 55-111): classify the
lowercased raw values, then truncate each to the 20-character schema
limit.  Returns (browser, os, device). -/
def parse_user_agent_info (v : Visit) : String × String × String :=
  (pyTrunc 20 (classifyBrowser (pyLower (v.browserName.getD "Unknown"))),
   pyTrunc 20 (classifyOs (pyLower (v.operatingSystemName.getD "Unknown"))
     (pyLower (v.operatingSystem.getD "Unknown"))),
   pyTrunc 20 (classifyDevice (pyLower (v.deviceType.getD "Unknown"))))

/-! ## create_session_data (lines 114-150) -/

/-- `countryCode.upper()[:2]` when truthy, else `None` (line 122). -/
def sessCountry (v : Visit) : Option String :=
  if pyTruthy v.countryCode then some (pyTrunc 2 (pyUpper (v.countryCode.getD "")))
  else none

/-- `regionCode[:20]` when truthy, else `None` (line 123). -/
def sessRegion (v : Visit) : Option String :=
  if pyTruthy v.regionCode then some (pyTrunc 20 (v.regionCode.getD "")) else none

/-- `city[:50]` when truthy, else `None` (line 124). -/
def sessCity (v : Visit) : Option String :=
  if pyTruthy v.city then some (pyTrunc 50 (v.city.getD "")) else none

/-- `resolution[:11]` when truthy, else `None` (line 127). -/
def sessScreen (v : Visit) : Option String :=
  if pyTruthy v.resolution then some (pyTrunc 11 (v.resolution.getD "")) else none

/-- `languageCode[:35]` when truthy, else `None` (line 130). -/
def sessLanguage (v : Visit) : Option String :=
  if pyTruthy v.languageCode then some (pyTrunc 35 (v.languageCode.getD "")) else none

/-- The run-scoped deduplication mapping `session_mapping` (a Python
dict from source visit id to derived session id). -/
abbrev Mapping := List (String × String)

/-- Python dict lookup on the mapping. -/
def mpLookup (id : String) : Mapping → Option String
  | [] => none
  | (k, s) :: t => if k = id then some s else mpLookup id t

/-- Column order of the `session` table (lines 386-389). -/
def session_columns : List String :=
  ["session_id", "website_id", "browser", "os", "device", "screen", "language",
   "country", "region", "city", "distinct_id", "created_at"]

/-- Column order of the `website_event` table (lines 391-395). -/
def event_columns : List String :=
  ["event_id", "website_id", "session_id", "visit_id", "created_at", "url_path",
   "url_query", "referrer_path", "referrer_query", "referrer_domain", "page_title",
   "event_type", "hostname"]

/-- The value row assembled at lines 135-148, given the derived session
id and the first-action timestamp. -/
def sessRowOf (L : Libs) (v : Visit) (website_id session_id : String) (ts : Int) : Row :=
  [safe_sql_value (.strV session_id),
   safe_sql_value (.strV website_id),
   safe_sql_value (.strV (parse_user_agent_info v).1),
   safe_sql_value (.strV (parse_user_agent_info v).2.1),
   safe_sql_value (.strV (parse_user_agent_info v).2.2),
   safe_sql_value (optPy (sessScreen v)),
   safe_sql_value (optPy (sessLanguage v)),
   safe_sql_value (optPy (sessCountry v)),
   safe_sql_value (optPy (sessRegion v)),
   safe_sql_value (optPy (sessCity v)),
   "NULL",
   parse_timestamp L ts]

/-- Embedding of `create_session_data` (lines 114-150).  The session id
is derived and stored in the mapping first (lines 116-117); reading
`visit_data['firstActionTimestamp']` (line 133) raises `KeyError` when
the key is absent, after the mapping was already updated — the
`.error` branch returns the mutated mapping with no row, exactly as the
interpreter leaves the state. -/
def create_session_data (L : Libs) (v : Visit) (website_id : String) (mp : Mapping)
    (ctr : Nat) : Mapping × Nat × Except Unit (String × Row) :=
  let g := generate_uuid L ctr (some ("session_" ++ v.idVisit))
  let session_id := g.1
  let ctr1 := g.2
  let mp1 := (v.idVisit, session_id) :: mp
  match v.firstActionTimestamp with
  | none => (mp1, ctr1, .error ())
  | some ts => (mp1, ctr1, .ok (session_id, sessRowOf L v website_id session_id ts))

/-! ## create_website_event_data (lines 153-214) -/

/-- URL split on the first question marks (lines 160-166):
`url.split('?')[0]` and `url.split('?')[1][:500]` when `'?' in url`,
else the whole URL with a `None` query.  Note `split('?')[1]` is the
segment between the first and second question mark, not everything
after the first one. -/
def eventUrlPathQuery (url : String) : String × Option String :=
  if pyIn "?" url then
    ((pySplit (Char.ofNat 63) url).headD "",
     ((pySplit (Char.ofNat 63) url)[1]?).map (pyTrunc 500))
  else (url, none)

/-- Domain stripping (lines 169-170): when the path starts with `http`,
split on `/`, drop the first three segments, rejoin behind a leading
slash. -/
def stripDomain (url_path : String) : String :=
  if pyStartsWith url_path "http" then
    "/" ++ String.intercalate "/" ((pySplit (Char.ofNat 47) url_path).drop 3)
  else url_path

/-- Referrer domain (lines 174-175, 181): extracted only for a truthy
referrer, then truncated to 500 when itself truthy. -/
def refDomain (L : Libs) (v : Visit) : Option String :=
  let referrer_url := v.referrerUrl.getD ""
  let d := if referrer_url ≠ "" then extract_base_domain L referrer_url else none
  match d with
  | some s => some (if s ≠ "" then pyTrunc 500 s else s)
  | none => none

/-- Referrer path (lines 177-178, 182): `urlparse(referrer).path` for a
truthy referrer, else `"/"`; truncated to 500 when truthy. -/
def refPath (L : Libs) (v : Visit) : String :=
  let referrer_url := v.referrerUrl.getD ""
  let p := if referrer_url ≠ "" then L.upath referrer_url else "/"
  if p ≠ "" then pyTrunc 500 p else p

/-- Referrer query (lines 179, 183): `"?" + urlparse(referrer).query`
when the referrer and its query are truthy, else the empty string
(never `None`); truncated to 500 when truthy. -/
def refQuery (L : Libs) (v : Visit) : String :=
  let referrer_url := v.referrerUrl.getD ""
  let q := if referrer_url ≠ "" ∧ L.uquery referrer_url ≠ ""
    then "?" ++ L.uquery referrer_url else ""
  if q ≠ "" then pyTrunc 500 q else q

/-- Page title (lines 186-187): `action.get('pageTitle',
action.get('title', ''))[:500]` when either key is truthy, else `None`. -/
def eventPageTitle (a : Action) : Option String :=
  if pyTruthy a.pageTitle || pyTruthy a.title
  then some (pyTrunc 500 (a.pageTitle.getD (a.title.getD "")))
  else none

/-- Hostname (lines 196-198): `url.split('/')[2][:100]` when the URL
starts with `http`; indexing `[2]` raises when fewer than three
segments exist. -/
def eventHostname (url : String) : Except Unit (Option String) :=
  if pyStartsWith url "http" then
    match (pySplit (Char.ofNat 47) url)[2]? with
    | some h => .ok (some (pyTrunc 100 h))
    | none => .error ()
  else .ok none

/-- The value row returned at line 200-214, given the quantities whose
reads can raise (`session_id`, `ts`, `hostname`) and the fresh event
id; the URL, referrer and title cells are computed from the record. -/
def eventRowOf (L : Libs) (a : Action) (v : Visit) (visit_id website_id : String)
    (session_id : String) (ts : Int) (hostname : Option String) (event_id : String) :
    Row :=
  [safe_sql_value (.objV event_id),
   safe_sql_value (.strV website_id),
   safe_sql_value (.strV session_id),
   safe_sql_value (.strV visit_id),
   parse_timestamp L ts,
   safe_sql_value (.strV (pyTrunc 500 (stripDomain (eventUrlPathQuery (a.url.getD "")).1))),
   safe_sql_value (optPy (eventUrlPathQuery (a.url.getD "")).2),
   safe_sql_value (.strV (refPath L v)),
   safe_sql_value (.strV (refQuery L v)),
   safe_sql_value (optPy (refDomain L v)),
   safe_sql_value (optPy (eventPageTitle a)),
   toString (1 : Nat),
   safe_sql_value (optPy hostname)]

/-- Embedding of `create_website_event_data` (lines 153-214).
`uuid.uuid4()` (line 156) consumes the random supply first; the
`session_mapping[...]` lookup (line 157), the `action['timestamp']`
read (line 190) and the hostname indexing (line 198) can raise, in
source order, yielding `.error` with the supply already consumed. -/
def create_website_event_data (L : Libs) (a : Action) (v : Visit)
    (visit_id website_id : String) (mp : Mapping) (ctr : Nat) :
    Nat × Except Unit Row :=
  let event_id := L.uuid4 ctr
  let ctr1 := ctr + 1
  match mpLookup v.idVisit mp with
  | none => (ctr1, .error ())
  | some session_id =>
    match a.timestamp with
    | none => (ctr1, .error ())
    | some ts =>
      match eventHostname (a.url.getD "") with
      | .error _ => (ctr1, .error ())
      | .ok hostname =>
        (ctr1, .ok (eventRowOf L a v visit_id website_id session_id ts hostname event_id))

/-! ## Split / substring lemmas -/

theorem string_mk_data (s : String) : String.mk s.data = s := by
  cases s; rfl

theorem pyInAux_single (c : Char) : ∀ l : List Char,
    pyInAux [c] l = l.any (fun x => c == x) := by
  intro l
  induction l with
  | nil => rfl
  | cons x t ih =>
    show (List.isPrefixOf [c] (x :: t) || pyInAux [c] t) = _
    rw [ih]
    simp [List.isPrefixOf]

theorem pySplitAux_ne_nil (sep : Char) : ∀ l : List Char, pySplitAux sep l ≠ [] := by
  intro l
  induction l with
  | nil => simp [pySplitAux]
  | cons c t ih =>
    simp only [pySplitAux]
    rcases hres : pySplitAux sep t with _ | ⟨hh, r⟩
    · exact absurd hres ih
    · by_cases hc : c = sep <;> simp [hc]

theorem pySplitAux_no_sep (sep : Char) : ∀ l : List Char,
    (∀ x ∈ l, ¬ x = sep) → pySplitAux sep l = [l] := by
  intro l
  induction l with
  | nil => intro _; rfl
  | cons c t ih =>
    intro h
    have ht := ih (fun x hx => h x (List.mem_cons_of_mem c hx))
    have hc := h c (List.mem_cons_self c t)
    simp [pySplitAux, ht, hc]

theorem pySplit_ne_nil (sep : Char) (s : String) : pySplit sep s ≠ [] := by
  intro h
  exact pySplitAux_ne_nil sep s.data (List.map_eq_nil_iff.mp h)

theorem pySplit_no_sep (sep : Char) (s : String) (h : ∀ x ∈ s.data, ¬ x = sep) :
    pySplit sep s = [s] := by
  simp [pySplit, pySplitAux_no_sep sep s.data h, string_mk_data]

theorem pyIn_qmark_false_split (url : String) (hin : ¬ pyIn "?" url = true) :
    pySplit (Char.ofNat 63) url = [url] := by
  apply pySplit_no_sep
  intro x hx hxeq
  apply hin
  show pyInAux ("?".data) url.data = true
  rw [show ("?".data) = [Char.ofNat 63] from rfl, pyInAux_single]
  rw [List.any_eq_true]
  exact ⟨x, hx, by rw [hxeq]; simp⟩

/-- Concrete library interpretation used by closed counterexamples and
witnesses: the seeded hash is the identity on the seed, the random
supply returns the counter index, URL parsing returns empty components,
domain extraction always fails, timestamps print as decimals. -/
def L0 : Libs :=
  ⟨fun s => s, fun n => toString n, fun _ => "", fun _ => "", fun _ => none,
   fun t => toString t⟩

/-- Action with two question marks in its URL (claim C7). -/
def aC7 : Action := ⟨some "action", some "/p?a=1?b=2", some 5, none, none⟩

/-- Visit owning `aC7`. -/
def vC7 : Visit :=
  ⟨"7", some 5, none, none, none, none, none, none, none, none, none, none, some [aC7]⟩

/-- C7 counterexample: for the URL `/p?a=1?b=2` the code emits
`url_query = 'a=1'` — the segment between the first and second `?` —
not the substring `a=1?b=2` after the first `?` that the claim
describes. -/
theorem url_query_counterexample :
    (eventUrlPathQuery "/p?a=1?b=2").2 = some "a=1"
    ∧ ((create_website_event_data L0 aC7 vC7 "vid" "w" [("7", "s")] 0).2.toOption.bind
        (fun row => row[6]?)) = some (safe_sql_value (.strV "a=1"))
    ∧ ¬ ("a=1" = "a=1?b=2") := by
  refine ⟨by decide, by decide, by decide⟩

/-- C7 amended: `url_query` is the second `'?'`-separated segment of
the URL (capped at 500), absent when the URL has no `'?'`; `url_path`
is the segment before the first `'?'` (the whole URL when it has
none), later domain-stripped and capped; the §8 example yields query
`q=1` and path `/y`. -/
theorem url_parsing_amended :
    (∀ url : String,
      (eventUrlPathQuery url).2 = ((pySplit (Char.ofNat 63) url)[1]?).map (pyTrunc 500))
    ∧ (∀ url : String, (eventUrlPathQuery url).1 = (pySplit (Char.ofNat 63) url).headD url)
    ∧ (∀ url : String, pyIn "?" url = false → (eventUrlPathQuery url).2 = none)
    ∧ eventUrlPathQuery "https://a.example/y?q=1" = ("https://a.example/y", some "q=1")
    ∧ pyTrunc 500 (stripDomain "https://a.example/y") = "/y" := by
  refine ⟨?_, ?_, ?_, by decide, by decide⟩
  · intro url
    by_cases hin : pyIn "?" url
    · simp only [eventUrlPathQuery, if_pos hin]
    · simp only [eventUrlPathQuery, if_neg hin]
      rw [pyIn_qmark_false_split url hin]
      rfl
  · intro url
    by_cases hin : pyIn "?" url
    · simp only [eventUrlPathQuery, if_pos hin]
      rcases hsp : pySplit (Char.ofNat 63) url with _ | ⟨p, r⟩
      · exact absurd hsp (pySplit_ne_nil _ _)
      · rfl
    · simp only [eventUrlPathQuery, if_neg hin]
      rw [pyIn_qmark_false_split url hin]
      rfl
  · intro url hin
    simp only [eventUrlPathQuery, hin]
    rfl

/-- Closed instance of the amended C7 hypotheses: a URL with no
question mark yields an absent query. -/
theorem url_parsing_amended_witness :
    pyIn "?" "/abc" = false ∧ (eventUrlPathQuery "/abc").2 = none :=
  ⟨by decide, url_parsing_amended.2.2.1 "/abc" (by decide)⟩

/-! ## Claim C10: referrer fields -/

theorem create_event_ok (L : Libs) (a : Action) (v : Visit)
    (visit_id website_id : String) (mp : Mapping) (ctr ctr2 : Nat) (row : Row)
    (h : create_website_event_data L a v visit_id website_id mp ctr = (ctr2, .ok row)) :
    ∃ session_id ts hostname,
      mpLookup v.idVisit mp = some session_id ∧ a.timestamp = some ts
      ∧ eventHostname (a.url.getD "") = .ok hostname
      ∧ ctr2 = ctr + 1
      ∧ row = eventRowOf L a v visit_id website_id session_id ts hostname (L.uuid4 ctr) := by
  simp only [create_website_event_data] at h
  rcases hm : mpLookup v.idVisit mp with _ | session_id
  · rw [hm] at h; simp at h
  · rw [hm] at h
    rcases hts : a.timestamp with _ | ts
    · rw [hts] at h; simp at h
    · rw [hts] at h
      rcases hh : eventHostname (a.url.getD "") with e | hostname
      · rw [hh] at h; simp at h
      · rw [hh] at h
        simp at h
        exact ⟨session_id, ts, hostname, rfl, rfl, rfl, h.1.symm, h.2.symm⟩

theorem safe_strV_ne_NULL (s : String) : safe_sql_value (.strV s) ≠ "NULL" := by
  intro heq
  have hd := congrArg String.data heq
  rw [safe_strV_data] at hd
  rw [show ("NULL".data) = [Char.ofNat 78, Char.ofNat 85, Char.ofNat 76, Char.ofNat 76]
    from rfl] at hd
  injection hd with h1 _
  exact absurd h1 (by decide)

/-- C10: for an event whose visit has an absent or empty referrer, the
emitted referrer_path is `/`, the referrer_query is the empty string
literal (never the NULL marker), and the referrer_domain is NULL; in
every case referrer_query is a string literal (never NULL), and when
the referrer and its parsed query are nonempty the referrer_query
starts with a `?` (unlike url_query). -/
theorem referrer_fields_contract (L : Libs) (a : Action) (v : Visit)
    (visit_id website_id : String) (mp : Mapping) (ctr ctr2 : Nat) (row : Row)
    (h : create_website_event_data L a v visit_id website_id mp ctr = (ctr2, .ok row)) :
    (v.referrerUrl.getD "" = "" →
        row[7]? = some (safe_sql_value (.strV "/"))
      ∧ row[8]? = some (safe_sql_value (.strV ""))
      ∧ row[9]? = some "NULL")
    ∧ row[8]? = some (safe_sql_value (.strV (refQuery L v)))
    ∧ row[8]? ≠ some "NULL"
    ∧ (v.referrerUrl.getD "" ≠ "" → L.uquery (v.referrerUrl.getD "") ≠ "" →
        (refQuery L v).data.head? = some (Char.ofNat 63)) := by
  obtain ⟨sid, ts, hostname, _, _, _, _, hrow⟩ :=
    create_event_ok L a v visit_id website_id mp ctr ctr2 row h
  subst hrow
  refine ⟨?_, rfl, ?_, ?_⟩
  · intro hempty
    have hp : refPath L v = "/" := by
      simp only [refPath, hempty]
      rw [if_neg (by decide : ¬ ("" : String) ≠ "")]
      rw [if_pos (by decide : ("/" : String) ≠ "")]
      decide
    have hq : refQuery L v = "" := by
      simp only [refQuery, hempty]
      rw [if_neg (by simp : ¬ (("" : String) ≠ "" ∧ L.uquery "" ≠ ""))]
      rw [if_neg (by decide : ¬ ("" : String) ≠ "")]
    have hd : refDomain L v = none := by
      simp only [refDomain, hempty]
      rw [if_neg (by decide : ¬ ("" : String) ≠ "")]
    refine ⟨?_, ?_, ?_⟩
    · show some (safe_sql_value (.strV (refPath L v))) = _
      rw [hp]
    · show some (safe_sql_value (.strV (refQuery L v))) = _
      rw [hq]
    · show some (safe_sql_value (optPy (refDomain L v))) = _
      rw [hd]
      rfl
  · show some (safe_sql_value (.strV (refQuery L v))) ≠ some "NULL"
    intro heq
    exact safe_strV_ne_NULL (refQuery L v) (Option.some.injEq _ _ ▸ heq)
  · intro hne hquery
    simp only [refQuery]
    rw [if_pos (⟨hne, hquery⟩ : _ ∧ _)]
    have hne2 : ("?" ++ L.uquery (v.referrerUrl.getD "")) ≠ "" := by
      intro he
      have hdx := congrArg String.data he
      rw [data_append] at hdx
      simp at hdx
    rw [if_pos hne2]
    show ((("?" ++ L.uquery (v.referrerUrl.getD "")).data).take 500).head? = _
    rw [data_append]
    rfl

/-- Action for the C10 witness. -/
def aW10 : Action := ⟨some "action", some "/p", some 3, none, none⟩

/-- Visit with no referrer for the C10 witness. -/
def vW10 : Visit :=
  ⟨"9", some 3, none, none, none, none, none, none, none, none, none, none, some [aW10]⟩

/-- The event row the C10 witness inspects. -/
def rowW10 : Row :=
  ((create_website_event_data L0 aW10 vW10 "vi" "w" [("9", "s")] 0).2.toOption).getD []

/-- Visit with a referrer for the C10 witness's leading-`?` clause. -/
def vW10q : Visit :=
  ⟨"9", some 3, none, none, none, none, none, none, none, none, none,
   some "http://r.example/p?x=1", some [aW10]⟩

/-- Library interpretation whose URL parser reports a nonempty query. -/
def LQ : Libs :=
  ⟨fun s => s, fun n => toString n, fun _ => "/p", fun _ => "x=1", fun _ => none,
   fun t => toString t⟩

/-- The event row for the referrer-present C10 witness. -/
def rowW10q : Row :=
  ((create_website_event_data LQ aW10 vW10q "vi" "w" [("9", "s")] 0).2.toOption).getD []

/-- Closed instance of C10's hypotheses: an event of a referrer-less
visit has referrer_path `/`, referrer_query `''` and referrer_domain
NULL, and an event of a visit with a query-carrying referrer gets a
leading `?` on referrer_query. -/
theorem referrer_fields_contract_witness :
    rowW10[7]? = some (safe_sql_value (.strV "/"))
    ∧ rowW10[8]? = some (safe_sql_value (.strV ""))
    ∧ rowW10[9]? = some "NULL"
    ∧ rowW10[8]? ≠ some "NULL"
    ∧ (refQuery LQ vW10q).data.head? = some (Char.ofNat 63) := by
  have h : create_website_event_data L0 aW10 vW10 "vi" "w" [("9", "s")] 0
      = (1, .ok rowW10) := by rfl
  have hq : create_website_event_data LQ aW10 vW10q "vi" "w" [("9", "s")] 0
      = (1, .ok rowW10q) := by rfl
  have hmain := referrer_fields_contract L0 aW10 vW10 "vi" "w" [("9", "s")] 0 1 rowW10 h
  have hempty := hmain.1 (by decide)
  exact ⟨hempty.1, hempty.2.1, hempty.2.2, hmain.2.2.1,
    (referrer_fields_contract LQ aW10 vW10q "vi" "w" [("9", "s")] 0 1 rowW10q hq).2.2.2
      (by decide) (by decide)⟩

/-! ## Claim C5: truncation caps -/

theorem pyTrunc_length (n : Nat) (s : String) : (pyTrunc n s).length = min n s.length := by
  show (s.data.take n).length = _
  exact List.length_take _ _

theorem pyTrunc_le (n : Nat) (s : String) : (pyTrunc n s).length ≤ n := by
  rw [pyTrunc_length]
  exact Nat.min_le_left _ _

theorem pyTrunc_exact (n : Nat) (s : String) (h : n < s.length) :
    (pyTrunc n s).length = n := by
  rw [pyTrunc_length]
  exact Nat.min_eq_left (Nat.le_of_lt h)

theorem pyUpper_length (s : String) : (pyUpper s).length = s.length := by
  show (s.data.map Char.toUpper).length = s.data.length
  exact List.length_map _ _

theorem truncIfNe_le (n : Nat) (p : String) :
    (if p ≠ "" then pyTrunc n p else p).length ≤ n := by
  by_cases h : p ≠ ""
  · rw [if_pos h]; exact pyTrunc_le n p
  · rw [if_neg h]
    have : p = "" := by
      by_contra hc
      exact h hc
    rw [this]
    exact Nat.zero_le n

/-- Visit whose browser name is 27 characters long and contains the
`chrome` signature (claim C5's counterexample input). -/
def vC5 : Visit :=
  ⟨"5", some 1, some "xchromexxxxxxxxxxxxxxxxxxxx", none, none, none, none, none,
   none, none, none, none, none⟩

/-- C5 counterexample: the 27-character raw browser name containing
`chrome` is classified to the 6-character value `chrome`, so the
emitted value is 6 characters long, not the 20 the claim demands for
any over-long input; truncation is applied to the classified value,
not the raw one. -/
theorem field_truncation_counterexample :
    ("xchromexxxxxxxxxxxxxxxxxxxx".length = 27)
    ∧ (parse_user_agent_info vC5).1 = "chrome"
    ∧ ((create_session_data L0 vC5 "w" [] 0).2.2.toOption.map
        (fun p => p.2[2]?)) = some (some (safe_sql_value (.strV "chrome")))
    ∧ (parse_user_agent_info vC5).1.length = 6
    ∧ ¬ ((parse_user_agent_info vC5).1.length = 20) := by
  refine ⟨by decide, by decide, by decide, by decide, by decide⟩

/-- C5 amended: every capped field is truncated to its cap immediately
before sanitization, acting on the derived value (the classified value
for browser/os/device, the uppercased code for country, the split or
parsed component for the URL, referrer and hostname fields); the value
that reaches `safe_sql_value` never exceeds the cap, and whenever the
derived value is longer than the cap the emitted value has exactly the
cap length. -/
theorem field_truncation_amended :
    (∀ v : Visit,
        (parse_user_agent_info v).1.length ≤ 20
      ∧ (parse_user_agent_info v).2.1.length ≤ 20
      ∧ (parse_user_agent_info v).2.2.length ≤ 20)
    ∧ (∀ b : String, 20 < (classifyBrowser b).length →
        (pyTrunc 20 (classifyBrowser b)).length = 20)
    ∧ (∀ o d : String, 20 < (classifyOs o d).length →
        (pyTrunc 20 (classifyOs o d)).length = 20)
    ∧ (∀ dv : String, 20 < (classifyDevice dv).length →
        (pyTrunc 20 (classifyDevice dv)).length = 20)
    ∧ (∀ v s, v.resolution = some s → s ≠ "" →
        sessScreen v = some (pyTrunc 11 s)
        ∧ (pyTrunc 11 s).length ≤ 11
        ∧ (11 < s.length → (pyTrunc 11 s).length = 11))
    ∧ (∀ v s, v.languageCode = some s → s ≠ "" →
        sessLanguage v = some (pyTrunc 35 s)
        ∧ (pyTrunc 35 s).length ≤ 35
        ∧ (35 < s.length → (pyTrunc 35 s).length = 35))
    ∧ (∀ v s, v.countryCode = some s → s ≠ "" →
        sessCountry v = some (pyTrunc 2 (pyUpper s))
        ∧ (pyTrunc 2 (pyUpper s)).length ≤ 2
        ∧ (2 < s.length → (pyTrunc 2 (pyUpper s)).length = 2))
    ∧ (∀ v s, v.regionCode = some s → s ≠ "" →
        sessRegion v = some (pyTrunc 20 s)
        ∧ (pyTrunc 20 s).length ≤ 20
        ∧ (20 < s.length → (pyTrunc 20 s).length = 20))
    ∧ (∀ v s, v.city = some s → s ≠ "" →
        sessCity v = some (pyTrunc 50 s)
        ∧ (pyTrunc 50 s).length ≤ 50
        ∧ (50 < s.length → (pyTrunc 50 s).length = 50))
    ∧ (∀ url : String,
        (pyTrunc 500 (stripDomain (eventUrlPathQuery url).1)).length ≤ 500
        ∧ (500 < (stripDomain (eventUrlPathQuery url).1).length →
            (pyTrunc 500 (stripDomain (eventUrlPathQuery url).1)).length = 500))
    ∧ (∀ url qseg, pyIn "?" url = true →
        (pySplit (Char.ofNat 63) url)[1]? = some qseg →
        (eventUrlPathQuery url).2 = some (pyTrunc 500 qseg)
        ∧ (500 < qseg.length → (pyTrunc 500 qseg).length = 500))
    ∧ (∀ (L : Libs) (v : Visit),
        (refPath L v).length ≤ 500
        ∧ (refQuery L v).length ≤ 500
        ∧ ∀ s, refDomain L v = some s → s.length ≤ 500)
    ∧ (∀ a : Action, (pyTruthy a.pageTitle || pyTruthy a.title) = true →
        eventPageTitle a = some (pyTrunc 500 (a.pageTitle.getD (a.title.getD "")))
        ∧ (500 < (a.pageTitle.getD (a.title.getD "")).length →
            (pyTrunc 500 (a.pageTitle.getD (a.title.getD ""))).length = 500))
    ∧ (∀ url seg, pyStartsWith url "http" = true →
        (pySplit (Char.ofNat 47) url)[2]? = some seg →
        eventHostname url = .ok (some (pyTrunc 100 seg))
        ∧ (100 < seg.length → (pyTrunc 100 seg).length = 100))
    ∧ (∀ (L : Libs) (v : Visit) (wid : String) (mp : Mapping) (ctr : Nat) (ts : Int),
        v.firstActionTimestamp = some ts →
        ∃ sid row, (create_session_data L v wid mp ctr).2.2 = .ok (sid, row)
        ∧ row[2]? = some (safe_sql_value (.strV (parse_user_agent_info v).1))
        ∧ row[5]? = some (safe_sql_value (optPy (sessScreen v)))) := by
  refine ⟨?_, ?_, ?_, ?_, ?_, ?_, ?_, ?_, ?_, ?_, ?_, ?_, ?_, ?_, ?_⟩
  · intro v
    exact ⟨pyTrunc_le _ _, pyTrunc_le _ _, pyTrunc_le _ _⟩
  · intro b h; exact pyTrunc_exact _ _ h
  · intro o d h; exact pyTrunc_exact _ _ h
  · intro dv h; exact pyTrunc_exact _ _ h
  · intro v s hres hs
    refine ⟨?_, pyTrunc_le _ _, fun h => pyTrunc_exact _ _ h⟩
    simp [sessScreen, pyTruthy, hres, hs]
  · intro v s hres hs
    refine ⟨?_, pyTrunc_le _ _, fun h => pyTrunc_exact _ _ h⟩
    simp [sessLanguage, pyTruthy, hres, hs]
  · intro v s hres hs
    refine ⟨?_, pyTrunc_le _ _, ?_⟩
    · simp [sessCountry, pyTruthy, hres, hs]
    · intro h
      rw [pyTrunc_length, pyUpper_length]
      exact Nat.min_eq_left (by omega)
  · intro v s hres hs
    refine ⟨?_, pyTrunc_le _ _, fun h => pyTrunc_exact _ _ h⟩
    simp [sessRegion, pyTruthy, hres, hs]
  · intro v s hres hs
    refine ⟨?_, pyTrunc_le _ _, fun h => pyTrunc_exact _ _ h⟩
    simp [sessCity, pyTruthy, hres, hs]
  · intro url
    exact ⟨pyTrunc_le _ _, fun h => pyTrunc_exact _ _ h⟩
  · intro url qseg hin hseg
    refine ⟨?_, fun h => pyTrunc_exact _ _ h⟩
    simp [eventUrlPathQuery, hin, hseg]
  · intro L v
    refine ⟨?_, ?_, ?_⟩
    · show (if _ ≠ "" then pyTrunc 500 _ else _).length ≤ 500
      exact truncIfNe_le _ _
    · show (if _ ≠ "" then pyTrunc 500 _ else _).length ≤ 500
      exact truncIfNe_le _ _
    · intro s hdom
      simp only [refDomain] at hdom
      rcases hd : (if (v.referrerUrl.getD "") ≠ ""
          then extract_base_domain L (v.referrerUrl.getD "") else none) with _ | s0
      · rw [hd] at hdom; simp at hdom
      · rw [hd] at hdom
        simp at hdom
        rw [← hdom]
        by_cases h0 : s0 = ""
        · rw [if_pos h0, h0]
          decide
        · rw [if_neg h0]
          exact pyTrunc_le _ _
  · intro a htruthy
    refine ⟨?_, fun h => pyTrunc_exact _ _ h⟩
    simp [eventPageTitle, htruthy]
  · intro url seg hst hseg
    refine ⟨?_, fun h => pyTrunc_exact _ _ h⟩
    simp [eventHostname, hst, hseg]
  · intro L v wid mp ctr ts hts
    refine ⟨(generate_uuid L ctr (some ("session_" ++ v.idVisit))).1,
      sessRowOf L v wid (generate_uuid L ctr (some ("session_" ++ v.idVisit))).1 ts,
      ?_, rfl, rfl⟩
    simp [create_session_data, hts]

/-- A 55-character city name. -/
def cityC5w : String := "cccccccccccccccccccccccccccccccccccccccccccccccccccccc"

/-- A 25-character browser value matching no signature. -/
def bC5w : String := "zzzzzzzzzzzzzzzzzzzzzzzzz"

/-- Visit for the C5 witness: over-long city, present screen and
timestamp. -/
def vC5w : Visit :=
  ⟨"5w", some 1, none, none, none, none, none, none, some cityC5w,
   some "1920x1080", none, none, none⟩

/-- Closed instance of the amended C5 hypotheses: a 55-character city
is cut to exactly 50 characters, an over-long unclassified browser
value to exactly 20, and the session row is built from the truncated
values. -/
theorem field_truncation_amended_witness :
    sessCity vC5w = some (pyTrunc 50 cityC5w)
    ∧ (pyTrunc 50 cityC5w).length = 50
    ∧ (pyTrunc 20 (classifyBrowser bC5w)).length = 20
    ∧ ∃ sid row, (create_session_data L0 vC5w "w" [] 0).2.2 = .ok (sid, row)
        ∧ row[5]? = some (safe_sql_value (optPy (sessScreen vC5w))) := by
  have h1 := (field_truncation_amended.2.2.2.2.2.2.2.2.1 vC5w cityC5w rfl (by decide))
  have h2 := field_truncation_amended.2.1 bC5w (by decide)
  have h3 := field_truncation_amended.2.2.2.2.2.2.2.2.2.2.2.2.2.2 L0 vC5w "w" [] 0 1 rfl
  exact ⟨h1.1, h1.2.2 (by decide), h2,
    ⟨h3.choose, h3.choose_spec.choose, h3.choose_spec.choose_spec.1,
     h3.choose_spec.choose_spec.2.2⟩⟩

/-! ## The migration loop (migrate_matomo_to_umami, lines 336-518) -/

/-- One entry of the observational enqueue log: which source visit id
caused which row to be appended to which batch.  This instruments the
two `*_batch.append(...)` calls so that the ordering and counting
claims can be stated; it carries no information back into the
computation. -/
inductive LogEntry where
  | sess (srcId : String) (row : Row) : LogEntry
  | evt (srcId : String) (row : Row) : LogEntry
deriving DecidableEq

/-- The mutable state of the migration loop: the deduplication mapping,
the `uuid4` supply counter, the two per-table row buffers, the emitted
statement stream, the enqueue log, the printed per-visit error
contexts (visit id, date context) and the event counter. -/
structure St where
  mapping : Mapping
  ctr : Nat
  sessionBatch : List Row
  eventBatch : List Row
  out : List Stmt
  log : List LogEntry
  errors : List (String × String)
  totalEvents : Nat
deriving DecidableEq

/-- State at the start of a run (lines 376-383). -/
def initSt : St := ⟨[], 0, [], [], [], [], [], 0⟩

/-- Per-action body of the inner loop (lines 471-482): only a type tag
equal to `action` emits a row; on success the event row is appended
and the event batch flushed at the threshold; a raised exception
aborts the remaining actions of this visit (second component
`false`). -/
def handleAction (L : Libs) (bs : Nat) (website_id : String) (v : Visit)
    (visit_id : String) (st : St) (a : Action) : St × Bool :=
  if a.type = some "action" then
    match create_website_event_data L a v visit_id website_id st.mapping st.ctr with
    | (ctr1, .error _) => ({ st with ctr := ctr1 }, false)
    | (ctr1, .ok row) =>
      let p := appendFlush "website_event" event_columns bs st.eventBatch st.out row
      ({ st with
          ctr := ctr1,
          eventBatch := p.1,
          out := p.2,
          totalEvents := st.totalEvents + 1,
          log := st.log ++ [.evt v.idVisit row] }, true)
  else (st, true)

/-- The `for action in visit_data['actionDetails']` loop, stopping at
the first raised exception. -/
def runActions (L : Libs) (bs : Nat) (website_id : String) (v : Visit)
    (visit_id : String) : St → List Action → St × Bool
  | st, [] => (st, true)
  | st, a :: rest =>
    match handleAction L bs website_id v visit_id st a with
    | (st1, true) => runActions L bs website_id v visit_id st1 rest
    | (st1, false) => (st1, false)

/-- Lines 456-464: when the visit id is not yet in the mapping, derive
the session, enqueue its row (flushing at the threshold); `false` when
the `firstActionTimestamp` read raised — the mapping update that
already happened is kept. -/
def sessStep (L : Libs) (bs : Nat) (website_id : String) (st : St) (v : Visit) :
    St × Bool :=
  if (mpLookup v.idVisit st.mapping).isNone then
    match create_session_data L v website_id st.mapping st.ctr with
    | (mp1, ctr1, .error _) => ({ st with mapping := mp1, ctr := ctr1 }, false)
    | (mp1, ctr1, .ok (_, row)) =>
      let q := appendFlush "session" session_columns bs st.sessionBatch st.out row
      ({ st with
          mapping := mp1,
          ctr := ctr1,
          sessionBatch := q.1,
          out := q.2,
          log := st.log ++ [.sess v.idVisit row] }, true)
  else (st, true)

/-- Lines 466-482: derive the per-visit identifier and run the action
loop when `actionDetails` is present. -/
def actionsStep (L : Libs) (bs : Nat) (website_id : String) (v : Visit) (st : St) :
    St × Bool :=
  let g := generate_uuid L st.ctr (some ("visit_" ++ v.idVisit))
  let stB := { st with ctr := g.2 }
  match v.actionDetails with
  | none => (stB, true)
  | some acts => runActions L bs website_id v g.1 stB acts

/-- The body of the `try` block for one visit (lines 454-482).  The
second component is `false` when an exception was raised; the returned
state keeps everything already done before the exception. -/
def processVisitCore (L : Libs) (bs : Nat) (website_id : String) (st : St) (v : Visit) :
    St × Bool :=
  match sessStep L bs website_id st v with
  | (stA, false) => (stA, false)
  | (stA, true) => actionsStep L bs website_id v stA

/-- One visit with its `except` clause (lines 484-487): a raised
exception is logged with the visit id and the date context and the
loop continues with the next visit. -/
def processVisit (L : Libs) (bs : Nat) (website_id dctx : String) (st : St) (v : Visit) :
    St :=
  match processVisitCore L bs website_id st v with
  | (st1, true) => st1
  | (st1, false) => { st1 with errors := st1.errors ++ [(v.idVisit, dctx)] }

/-- One date-range chunk: its date context string and its visit list
(lines 452-487). -/
def processChunk (L : Libs) (bs : Nat) (website_id : String) (st : St)
    (c : String × List Visit) : St :=
  c.2.foldl (processVisit L bs website_id c.1) st

/-- End-of-run flush of the session remainder (lines 499-500). -/
def finalizeSess (bs : Nat) (st : St) : St :=
  if st.sessionBatch.isEmpty then st
  else { st with
    out := st.out ++ write_batch_insert "session" session_columns st.sessionBatch bs,
    sessionBatch := [] }

/-- End-of-run flush of the event remainder (lines 502-503). -/
def finalizeEvt (bs : Nat) (st : St) : St :=
  if st.eventBatch.isEmpty then st
  else { st with
    out := st.out ++ write_batch_insert "website_event" event_columns st.eventBatch bs,
    eventBatch := [] }

/-- The end-of-run flush of both remainders (lines 499-503). -/
def finalize (bs : Nat) (st : St) : St := finalizeEvt bs (finalizeSess bs st)

/-- Embedding of the data-processing part of `migrate_matomo_to_umami`:
fold the acquired chunks through the visit loop and flush the
remainders.  Header/footer comment lines, progress reporting and the
HTTP acquisition itself carry no rows and are omitted. -/
def migrate (L : Libs) (bs : Nat) (website_id : String)
    (chunks : List (String × List Visit)) : St :=
  finalize bs (chunks.foldl (processChunk L bs website_id) initSt)

/-! ## Claim C8: non-pageview actions are skipped -/

/-- C8: an action whose type tag differs from `action` (including a
missing tag) contributes no event row, changes nothing, and raises no
error — even if its other fields are malformed. -/
theorem non_pageview_actions_skipped (L : Libs) (bs : Nat) (website_id : String)
    (v : Visit) (visit_id : String) (st : St) (a : Action)
    (h : ¬ a.type = some "action") :
    handleAction L bs website_id v visit_id st a = (st, true) := by
  simp [handleAction, h]

/-- An action with a non-pageview type tag and a missing timestamp. -/
def aC8 : Action := ⟨some "click", some "/p", none, none, none⟩

/-- An action with no type tag at all. -/
def aC8none : Action := ⟨none, some "/p", none, none, none⟩

/-- Closed instance of C8's hypothesis: a `click`-typed action and an
untyped action each leave the state untouched and report success, even
though both lack the timestamp whose read would raise. -/
theorem non_pageview_actions_skipped_witness :
    handleAction L0 1000 "w" vW10 "vi" initSt aC8 = (initSt, true)
    ∧ handleAction L0 1000 "w" vW10 "vi" initSt aC8none = (initSt, true) :=
  ⟨non_pageview_actions_skipped L0 1000 "w" vW10 "vi" initSt aC8 (by decide),
   non_pageview_actions_skipped L0 1000 "w" vW10 "vi" initSt aC8none (by decide)⟩

/-! ## Derived session identifiers and frame lemmas -/

/-- The session identifier the code derives for a source visit id:
`generate_uuid("session_" + id)`. -/
def sessKey (L : Libs) (id : String) : String := L.md5uuid ("session_" ++ id)

theorem session_seed_ne (id : String) : ("session_" ++ id) ≠ "" := by
  intro h
  have hd := congrArg String.data h
  rw [data_append] at hd
  rw [show ("session_".data) = ['s', 'e', 's', 's', 'i', 'o', 'n', '_'] from rfl] at hd
  simp at hd

theorem generate_uuid_session (L : Libs) (ctr : Nat) (id : String) :
    generate_uuid L ctr (some ("session_" ++ id)) = (sessKey L id, ctr) := by
  simp [generate_uuid, sessKey, session_seed_ne id]

theorem handleAction_frame (L : Libs) (bs : Nat) (wid : String) (v : Visit)
    (vid : String) (st : St) (a : Action) :
    (handleAction L bs wid v vid st a).1.mapping = st.mapping
    ∧ (handleAction L bs wid v vid st a).1.errors = st.errors
    ∧ ∃ t, (handleAction L bs wid v vid st a).1.log = st.log ++ t := by
  unfold handleAction
  by_cases hty : a.type = some "action"
  · rw [if_pos hty]
    rcases hc : create_website_event_data L a v vid wid st.mapping st.ctr with ⟨ctr1, res⟩
    cases res with
    | error e => exact ⟨rfl, rfl, [], by simp⟩
    | ok row => exact ⟨rfl, rfl, [.evt v.idVisit row], rfl⟩
  · rw [if_neg hty]
    exact ⟨rfl, rfl, [], by simp⟩

theorem runActions_frame (L : Libs) (bs : Nat) (wid : String) (v : Visit) (vid : String) :
    ∀ (acts : List Action) (st : St),
    (runActions L bs wid v vid st acts).1.mapping = st.mapping
    ∧ (runActions L bs wid v vid st acts).1.errors = st.errors
    ∧ ∃ t, (runActions L bs wid v vid st acts).1.log = st.log ++ t := by
  intro acts
  induction acts with
  | nil => intro st; exact ⟨rfl, rfl, [], by simp [runActions]⟩
  | cons a rest ih =>
    intro st
    have hfa := handleAction_frame L bs wid v vid st a
    rcases hha : handleAction L bs wid v vid st a with ⟨st1, ok⟩
    rw [hha] at hfa
    unfold runActions
    rw [hha]
    cases ok
    · exact hfa
    · obtain ⟨hm1, he1, t1, hl1⟩ := hfa
      obtain ⟨hm2, he2, t2, hl2⟩ := ih st1
      exact ⟨hm2.trans hm1, he2.trans he1, t1 ++ t2, by rw [hl2, hl1, List.append_assoc]⟩

theorem sessStep_frame (L : Libs) (bs : Nat) (wid : String) (st : St) (v : Visit) :
    ((sessStep L bs wid st v).1.mapping = st.mapping
      ∨ (sessStep L bs wid st v).1.mapping
          = (v.idVisit, sessKey L v.idVisit) :: st.mapping)
    ∧ (sessStep L bs wid st v).1.errors = st.errors
    ∧ ∃ t, (sessStep L bs wid st v).1.log = st.log ++ t := by
  unfold sessStep
  by_cases hnew : (mpLookup v.idVisit st.mapping).isNone
  · rw [if_pos hnew]
    rcases hts : v.firstActionTimestamp with _ | ts
    · have hc : create_session_data L v wid st.mapping st.ctr
          = ((v.idVisit, sessKey L v.idVisit) :: st.mapping, st.ctr, .error ()) := by
        simp [create_session_data, hts, generate_uuid_session]
      rw [hc]
      exact ⟨Or.inr rfl, rfl, [], by simp⟩
    · have hc : create_session_data L v wid st.mapping st.ctr
          = ((v.idVisit, sessKey L v.idVisit) :: st.mapping, st.ctr,
             .ok (sessKey L v.idVisit, sessRowOf L v wid (sessKey L v.idVisit) ts)) := by
        simp [create_session_data, hts, generate_uuid_session]
      rw [hc]
      exact ⟨Or.inr rfl, rfl,
        [.sess v.idVisit (sessRowOf L v wid (sessKey L v.idVisit) ts)], rfl⟩
  · rw [if_neg hnew]
    exact ⟨Or.inl rfl, rfl, [], by simp⟩

theorem actionsStep_frame (L : Libs) (bs : Nat) (wid : String) (v : Visit) (st : St) :
    (actionsStep L bs wid v st).1.mapping = st.mapping
    ∧ (actionsStep L bs wid v st).1.errors = st.errors
    ∧ ∃ t, (actionsStep L bs wid v st).1.log = st.log ++ t := by
  unfold actionsStep
  rcases had : v.actionDetails with _ | acts
  · exact ⟨rfl, rfl, [], by simp⟩
  · exact runActions_frame L bs wid v _ acts _

theorem processVisitCore_frame (L : Libs) (bs : Nat) (wid : String) (st : St) (v : Visit) :
    ((processVisitCore L bs wid st v).1.mapping = st.mapping
      ∨ (processVisitCore L bs wid st v).1.mapping
          = (v.idVisit, sessKey L v.idVisit) :: st.mapping)
    ∧ (processVisitCore L bs wid st v).1.errors = st.errors
    ∧ ∃ t, (processVisitCore L bs wid st v).1.log = st.log ++ t := by
  unfold processVisitCore
  have hsf := sessStep_frame L bs wid st v
  rcases hss : sessStep L bs wid st v with ⟨stA, ok⟩
  rw [hss] at hsf
  cases ok
  · exact hsf
  · have haf := actionsStep_frame L bs wid v stA
    obtain ⟨hm1, he1, t1, hl1⟩ := hsf
    obtain ⟨hm2, he2, t2, hl2⟩ := haf
    refine ⟨?_, he2.trans he1, t1 ++ t2, by rw [hl2, hl1, List.append_assoc]⟩
    rcases hm1 with h | h
    · exact Or.inl (hm2.trans h)
    · exact Or.inr (hm2.trans h)

/-! ## Claim C9: per-visit error handling -/

/-- A pageview action with a missing timestamp: transforming it raises
`KeyError` at `action['timestamp']`. -/
def aC9 : Action := ⟨some "action", some "/p", none, none, none⟩

/-- A visit whose session fields are fine but whose only action is
malformed. -/
def vC9 : Visit :=
  ⟨"9", some 100, none, none, none, none, none, none, none, none, none, none,
   some [aC9]⟩

/-- The final state of a run over the single malformed visit. -/
def stC9 : St := migrate L0 1000 "w" [("2024-01-01", [vC9])]

/-- C9 counterexample: the visit's transformation fails (its id and
date are logged) and yet its already-enqueued session row appears in
the emitted output — one statement with one row — contradicting the
claim that no rows from a failing visit appear. -/
theorem error_handling_counterexample :
    stC9.errors = [("9", "2024-01-01")]
    ∧ stC9.out.map (fun s => (s.1, s.2.2.length)) = [("session", 1)]
    ∧ stC9.log.length = 1
    ∧ stC9.totalEvents = 0 := by
  refine ⟨by decide, by decide, by decide, by decide⟩

/-- C9 amended: an exception while transforming one visit is caught and
logged with the source visit id and the date context, and processing
continues with the next visit; rows of that visit enqueued before the
failure point remain in the output and only the rest of the visit is
skipped. -/
theorem error_handling_amended (L : Libs) (bs : Nat) (website_id dctx : String)
    (st : St) (v : Visit) :
    (processVisit L bs website_id dctx st v).errors
      = st.errors ++ (if (processVisitCore L bs website_id st v).2 then []
          else [(v.idVisit, dctx)])
    ∧ (∃ t, (processVisit L bs website_id dctx st v).log = st.log ++ t)
    ∧ (∀ rest : List Visit,
        (v :: rest).foldl (processVisit L bs website_id dctx) st
          = rest.foldl (processVisit L bs website_id dctx)
              (processVisit L bs website_id dctx st v)) := by
  have hframe := processVisitCore_frame L bs website_id st v
  refine ⟨?_, ?_, fun rest => rfl⟩
  · rcases hc : processVisitCore L bs website_id st v with ⟨st1, ok⟩
    rw [hc] at hframe
    obtain ⟨-, he, -⟩ := hframe
    unfold processVisit
    rw [hc]
    cases ok
    · show st1.errors ++ [(v.idVisit, dctx)] = st.errors ++ _
      rw [he]
      rfl
    · show st1.errors = st.errors ++ _
      rw [he]
      simp
  · rcases hc : processVisitCore L bs website_id st v with ⟨st1, ok⟩
    rw [hc] at hframe
    obtain ⟨-, -, t, hl⟩ := hframe
    unfold processVisit
    rw [hc]
    cases ok
    · exact ⟨t, hl⟩
    · exact ⟨t, hl⟩

/-! ## Deduplication and ordering invariant (claims C1 and C3) -/

/-- How many session rows for the given source visit id were ever
appended. -/
def countSess (id : String) (log : List LogEntry) : Nat :=
  (log.filter (fun e => match e with
    | .sess i _ => decide (i = id)
    | .evt _ _ => false)).length

/-- The source visit ids whose session rows appear in the log, in
order. -/
def sessIds (log : List LogEntry) : List String :=
  log.filterMap (fun e => match e with
    | .sess i _ => some i
    | .evt _ _ => none)

/-- Every event enqueue is preceded by a session enqueue with the same
source id: scan the log left to right carrying the ids already seen. -/
def orderAux (seen : List String) : List LogEntry → Prop
  | [] => True
  | .sess i _ :: rest => orderAux (i :: seen) rest
  | .evt i _ :: rest => i ∈ seen ∧ orderAux seen rest

/-- The loop invariant tying the mapping to the enqueue log: mapping
values are the deterministic session keys; there is exactly one
session enqueue per mapped id and none for unmapped ids; session rows
carry their key in the first cell and event rows in the third; events
never precede their session. -/
def Inv (L : Libs) (st : St) : Prop :=
  (∀ p ∈ st.mapping, p.2 = sessKey L p.1)
  ∧ (∀ id, countSess id st.log = if (mpLookup id st.mapping).isSome then 1 else 0)
  ∧ (∀ id row, LogEntry.sess id row ∈ st.log →
      row.head? = some (safe_sql_value (.strV (sessKey L id))))
  ∧ (∀ id row, LogEntry.evt id row ∈ st.log →
      row[2]? = some (safe_sql_value (.strV (sessKey L id))))
  ∧ orderAux [] st.log

theorem countSess_append_sess (id i : String) (row : Row) (log : List LogEntry) :
    countSess id (log ++ [.sess i row])
      = countSess id log + (if i = id then 1 else 0) := by
  unfold countSess
  rw [List.filter_append, List.length_append]
  congr 1
  by_cases h : i = id <;> simp [List.filter, h]

theorem countSess_append_evt (id i : String) (row : Row) (log : List LogEntry) :
    countSess id (log ++ [.evt i row]) = countSess id log := by
  unfold countSess
  rw [List.filter_append]
  simp [List.filter]

theorem countSess_pos_mem (id : String) : ∀ log : List LogEntry,
    countSess id log ≠ 0 → id ∈ sessIds log := by
  intro log
  induction log with
  | nil => intro h; simp [countSess] at h
  | cons e rest ih =>
    intro h
    cases e with
    | sess i row =>
      by_cases hi : i = id
      · subst hi
        exact List.mem_cons_self _ _
      · have hcc : countSess id (LogEntry.sess i row :: rest) = countSess id rest := by
          simp [countSess, List.filter_cons, hi]
        rw [hcc] at h
        exact List.mem_cons_of_mem _ (ih h)
    | evt i row =>
      have hcc : countSess id (LogEntry.evt i row :: rest) = countSess id rest := by
        simp [countSess, List.filter_cons]
      rw [hcc] at h
      exact ih h

theorem orderAux_append_sess (i : String) (row : Row) :
    ∀ (log : List LogEntry) (seen : List String),
    orderAux seen log → orderAux seen (log ++ [.sess i row]) := by
  intro log
  induction log with
  | nil => intro seen _; exact True.intro
  | cons e rest ih =>
    intro seen h
    cases e with
    | sess j r2 => exact ih (j :: seen) h
    | evt j r2 => exact ⟨h.1, ih seen h.2⟩

theorem orderAux_append_evt (i : String) (row : Row) :
    ∀ (log : List LogEntry) (seen : List String),
    i ∈ seen ∨ i ∈ sessIds log →
    orderAux seen log → orderAux seen (log ++ [.evt i row]) := by
  intro log
  induction log with
  | nil =>
    intro seen hmem h
    rcases hmem with hs | hs
    · exact ⟨hs, True.intro⟩
    · simp [sessIds] at hs
  | cons e rest ih =>
    intro seen hmem h
    cases e with
    | sess j r2 =>
      refine ih (j :: seen) ?_ h
      rcases hmem with hs | hs
      · exact Or.inl (List.mem_cons_of_mem _ hs)
      · rcases List.mem_cons.mp hs with heq | hmem2
        · exact Or.inl (by rw [heq]; exact List.mem_cons_self _ _)
        · exact Or.inr hmem2
    | evt j r2 =>
      refine ⟨h.1, ih seen ?_ h.2⟩
      rcases hmem with hs | hs
      · exact Or.inl hs
      · exact Or.inr hs

theorem mem_of_getElem? {α : Type} : ∀ (l : List α) (i : Nat) (a : α),
    l[i]? = some a → a ∈ l := by
  intro l
  induction l with
  | nil => intro i a h; simp at h
  | cons x rest ih =>
    intro i a h
    cases i with
    | zero =>
      simp at h
      subst h
      exact List.mem_cons_self _ _
    | succ n =>
      have h' : rest[n]? = some a := by simpa using h
      exact List.mem_cons_of_mem _ (ih n a h')

theorem orderAux_getElem : ∀ (log : List LogEntry) (seen : List String),
    orderAux seen log → ∀ (i : Nat) (id : String) (row : Row),
    log[i]? = some (.evt id row) →
    (∃ j, j < i ∧ ∃ row2, log[j]? = some (.sess id row2)) ∨ id ∈ seen := by
  intro log
  induction log with
  | nil => intro seen _ i id row h; simp at h
  | cons e rest ih =>
    intro seen hord i id row h
    cases e with
    | sess j r0 =>
      cases i with
      | zero => simp at h
      | succ n =>
        have h' : rest[n]? = some (.evt id row) := by simpa using h
        rcases ih (j :: seen) hord n id row h' with ⟨k, hk, row2, hget⟩ | hmem
        · exact Or.inl ⟨k + 1, by omega, row2, by simpa using hget⟩
        · rcases List.mem_cons.mp hmem with heq | hseen
          · refine Or.inl ⟨0, by omega, r0, ?_⟩
            rw [heq]
            simp
          · exact Or.inr hseen
    | evt j r0 =>
      cases i with
      | zero =>
        simp at h
        exact Or.inr (h.1 ▸ hord.1)
      | succ n =>
        have h' : rest[n]? = some (.evt id row) := by simpa using h
        rcases ih seen hord.2 n id row h' with ⟨k, hk, row2, hget⟩ | hmem
        · exact Or.inl ⟨k + 1, by omega, row2, by simpa using hget⟩
        · exact Or.inr hmem

theorem mpLookup_mem : ∀ (mp : Mapping) (id s : String),
    mpLookup id mp = some s → (id, s) ∈ mp := by
  intro mp
  induction mp with
  | nil => intro id s h; simp [mpLookup] at h
  | cons p rest ih =>
    intro id s h
    rcases p with ⟨k, val⟩
    by_cases hk : k = id
    · simp only [mpLookup, if_pos hk] at h
      subst hk
      injection h with h
      subst h
      exact List.mem_cons_self _ _
    · simp only [mpLookup, if_neg hk] at h
      exact List.mem_cons_of_mem _ (ih id s h)

theorem mpLookup_isSome_cons (k s id : String) (mp : Mapping)
    (h : (mpLookup id mp).isSome) : (mpLookup id ((k, s) :: mp)).isSome := by
  simp only [mpLookup]
  by_cases hk : k = id <;> simp [hk, h]

theorem Inv_init (L : Libs) : Inv L initSt := by
  refine ⟨?_, ?_, ?_, ?_, True.intro⟩
  · intro p hp; simp [initSt] at hp
  · intro id; simp [countSess, mpLookup, initSt]
  · intro id row h; simp [initSt] at h
  · intro id row h; simp [initSt] at h

theorem Inv_of_same (L : Libs) (st st' : St) (hm : st'.mapping = st.mapping)
    (hl : st'.log = st.log) (h : Inv L st) : Inv L st' := by
  obtain ⟨a, b, c, d, e⟩ := h
  refine ⟨?_, ?_, ?_, ?_, ?_⟩
  · rw [hm]; exact a
  · intro id; rw [hm, hl]; exact b id
  · intro id row hmem; rw [hl] at hmem; exact c id row hmem
  · intro id row hmem; rw [hl] at hmem; exact d id row hmem
  · rw [hl]; exact e

/-! ## Preservation of the invariant along the loop -/

theorem handleAction_inv (L : Libs) (bs : Nat) (wid : String) (v : Visit) (vid : String)
    (st : St) (a : Action)
    (hlk : (mpLookup v.idVisit st.mapping).isSome)
    (hinv : Inv L st) :
    Inv L (handleAction L bs wid v vid st a).1 := by
  unfold handleAction
  by_cases hty : a.type = some "action"
  · rw [if_pos hty]
    rcases hc : create_website_event_data L a v vid wid st.mapping st.ctr with ⟨ctr1, res⟩
    cases res with
    | error e => exact hinv
    | ok row =>
      obtain ⟨hmap, hcount, hsessrow, hevtrow, hord⟩ := hinv
      obtain ⟨sid, ts, hn, hmp, hts, hhost, hctr, hrow⟩ :=
        create_event_ok L a v vid wid st.mapping st.ctr ctr1 row hc
      have hsid : sid = sessKey L v.idVisit :=
        hmap _ (mpLookup_mem st.mapping v.idVisit sid hmp)
      refine ⟨hmap, ?_, ?_, ?_, ?_⟩
      · intro id
        show countSess id (st.log ++ [.evt v.idVisit row])
            = if (mpLookup id st.mapping).isSome then 1 else 0
        rw [countSess_append_evt]
        exact hcount id
      · intro id row2 hmem
        rcases List.mem_append.mp hmem with hl | hr
        · exact hsessrow id row2 hl
        · simp at hr
      · intro id row2 hmem
        rcases List.mem_append.mp hmem with hl | hr
        · exact hevtrow id row2 hl
        · simp at hr
          obtain ⟨h1, h2⟩ := hr
          subst h1
          subst h2
          rw [hrow]
          show some (safe_sql_value (.strV sid)) = _
          rw [hsid]
      · show orderAux [] (st.log ++ [.evt v.idVisit row])
        apply orderAux_append_evt _ _ st.log [] _ hord
        right
        apply countSess_pos_mem
        rw [hcount v.idVisit]
        simp [hlk]
  · rw [if_neg hty]
    exact hinv

theorem runActions_inv (L : Libs) (bs : Nat) (wid : String) (v : Visit) (vid : String) :
    ∀ (acts : List Action) (st : St),
    (mpLookup v.idVisit st.mapping).isSome → Inv L st →
    Inv L (runActions L bs wid v vid st acts).1 := by
  intro acts
  induction acts with
  | nil => intro st _ hinv; exact hinv
  | cons a rest ih =>
    intro st hlk hinv
    have hIA := handleAction_inv L bs wid v vid st a hlk hinv
    have hFA := handleAction_frame L bs wid v vid st a
    rcases hha : handleAction L bs wid v vid st a with ⟨st1, ok⟩
    rw [hha] at hIA hFA
    unfold runActions
    rw [hha]
    cases ok
    · exact hIA
    · exact ih st1 (by rw [hFA.1]; exact hlk) hIA

theorem sessStep_inv (L : Libs) (bs : Nat) (wid : String) (st : St) (v : Visit)
    (hwf : v.firstActionTimestamp.isSome)
    (hinv : Inv L st) :
    Inv L (sessStep L bs wid st v).1
    ∧ (mpLookup v.idVisit (sessStep L bs wid st v).1.mapping).isSome := by
  obtain ⟨hmap, hcount, hsessrow, hevtrow, hord⟩ := hinv
  unfold sessStep
  by_cases hnew : (mpLookup v.idVisit st.mapping).isNone
  · rw [if_pos hnew]
    rcases hts : v.firstActionTimestamp with _ | ts
    · rw [hts] at hwf; simp at hwf
    · have hc : create_session_data L v wid st.mapping st.ctr
          = ((v.idVisit, sessKey L v.idVisit) :: st.mapping, st.ctr,
             .ok (sessKey L v.idVisit, sessRowOf L v wid (sessKey L v.idVisit) ts)) := by
        simp [create_session_data, hts, generate_uuid_session]
      rw [hc]
      have hnone : mpLookup v.idVisit st.mapping = none := by
        rcases hlv : mpLookup v.idVisit st.mapping with _ | s
        · rfl
        · rw [hlv] at hnew; simp at hnew
      constructor
      · refine ⟨?_, ?_, ?_, ?_, ?_⟩
        · intro p hp
          rcases List.mem_cons.mp hp with heq | hm
          · rw [heq]
          · exact hmap p hm
        · intro id
          show countSess id
              (st.log ++ [.sess v.idVisit (sessRowOf L v wid (sessKey L v.idVisit) ts)])
            = if (mpLookup id ((v.idVisit, sessKey L v.idVisit) :: st.mapping)).isSome
              then 1 else 0
          rw [countSess_append_sess, hcount id]
          simp only [mpLookup]
          by_cases hid : v.idVisit = id
          · subst hid
            simp [hnone]
          · simp [hid]
        · intro id row2 hmem
          rcases List.mem_append.mp hmem with hl | hr
          · exact hsessrow id row2 hl
          · simp at hr
            obtain ⟨h1, h2⟩ := hr
            subst h1
            subst h2
            rfl
        · intro id row2 hmem
          rcases List.mem_append.mp hmem with hl | hr
          · exact hevtrow id row2 hl
          · simp at hr
        · show orderAux [] (st.log ++ [.sess _ _])
          exact orderAux_append_sess _ _ st.log [] hord
      · simp [mpLookup]
  · rw [if_neg hnew]
    constructor
    · exact ⟨hmap, hcount, hsessrow, hevtrow, hord⟩
    · rcases hlv : mpLookup v.idVisit st.mapping with _ | s
      · rw [hlv] at hnew; simp at hnew
      · simp

theorem actionsStep_inv (L : Libs) (bs : Nat) (wid : String) (v : Visit) (st : St)
    (hlk : (mpLookup v.idVisit st.mapping).isSome)
    (hinv : Inv L st) :
    Inv L (actionsStep L bs wid v st).1 := by
  unfold actionsStep
  rcases had : v.actionDetails with _ | acts
  · exact hinv
  · exact runActions_inv L bs wid v _ acts _ hlk hinv

theorem processVisitCore_inv (L : Libs) (bs : Nat) (wid : String) (st : St) (v : Visit)
    (hwf : v.firstActionTimestamp.isSome)
    (hinv : Inv L st) :
    Inv L (processVisitCore L bs wid st v).1 := by
  unfold processVisitCore
  have hsi := sessStep_inv L bs wid st v hwf hinv
  rcases hss : sessStep L bs wid st v with ⟨stA, ok⟩
  rw [hss] at hsi
  cases ok
  · exact hsi.1
  · exact actionsStep_inv L bs wid v stA hsi.2 hsi.1

theorem processVisit_inv (L : Libs) (bs : Nat) (wid dctx : String) (st : St) (v : Visit)
    (hwf : v.firstActionTimestamp.isSome)
    (hinv : Inv L st) :
    Inv L (processVisit L bs wid dctx st v) := by
  have hci := processVisitCore_inv L bs wid st v hwf hinv
  unfold processVisit
  rcases hc : processVisitCore L bs wid st v with ⟨st1, ok⟩
  rw [hc] at hci
  cases ok
  · exact hci
  · exact hci

theorem sessStep_self (L : Libs) (bs : Nat) (wid : String) (st : St) (v : Visit) :
    (mpLookup v.idVisit (sessStep L bs wid st v).1.mapping).isSome := by
  unfold sessStep
  by_cases hnew : (mpLookup v.idVisit st.mapping).isNone
  · rw [if_pos hnew]
    rcases hts : v.firstActionTimestamp with _ | ts
    · have hc : create_session_data L v wid st.mapping st.ctr
          = ((v.idVisit, sessKey L v.idVisit) :: st.mapping, st.ctr, .error ()) := by
        simp [create_session_data, hts, generate_uuid_session]
      rw [hc]
      simp [mpLookup]
    · have hc : create_session_data L v wid st.mapping st.ctr
          = ((v.idVisit, sessKey L v.idVisit) :: st.mapping, st.ctr,
             .ok (sessKey L v.idVisit, sessRowOf L v wid (sessKey L v.idVisit) ts)) := by
        simp [create_session_data, hts, generate_uuid_session]
      rw [hc]
      simp [mpLookup]
  · rw [if_neg hnew]
    rcases hlv : mpLookup v.idVisit st.mapping with _ | s
    · rw [hlv] at hnew; simp at hnew
    · simp

theorem processVisitCore_self (L : Libs) (bs : Nat) (wid : String) (st : St) (v : Visit) :
    (mpLookup v.idVisit (processVisitCore L bs wid st v).1.mapping).isSome := by
  have hself := sessStep_self L bs wid st v
  unfold processVisitCore
  rcases hss : sessStep L bs wid st v with ⟨stA, ok⟩
  rw [hss] at hself
  cases ok
  · exact hself
  · show (mpLookup v.idVisit (actionsStep L bs wid v stA).1.mapping).isSome
    rw [(actionsStep_frame L bs wid v stA).1]
    exact hself

theorem processVisit_self (L : Libs) (bs : Nat) (wid dctx : String) (st : St) (v : Visit) :
    (mpLookup v.idVisit (processVisit L bs wid dctx st v).mapping).isSome := by
  have hcs := processVisitCore_self L bs wid st v
  unfold processVisit
  rcases hc : processVisitCore L bs wid st v with ⟨st1, ok⟩
  rw [hc] at hcs
  cases ok
  · exact hcs
  · exact hcs

theorem processVisit_mono (L : Libs) (bs : Nat) (wid dctx : String) (st : St) (v : Visit)
    (id : String) (h : (mpLookup id st.mapping).isSome) :
    (mpLookup id (processVisit L bs wid dctx st v).mapping).isSome := by
  have hframe := processVisitCore_frame L bs wid st v
  unfold processVisit
  rcases hc : processVisitCore L bs wid st v with ⟨st1, ok⟩
  rw [hc] at hframe
  have hsome : (mpLookup id st1.mapping).isSome := by
    rcases hframe.1 with he | he
    · rw [he]; exact h
    · rw [he]; exact mpLookup_isSome_cons _ _ _ _ h
  cases ok
  · exact hsome
  · exact hsome

/-! ## Folding the invariant over the whole run -/

theorem foldl_pres {α : Type} (f : St → α → St) (P : St → Prop) (Q : α → Prop)
    (hstep : ∀ st x, Q x → P st → P (f st x)) :
    ∀ (l : List α) (st : St), (∀ x ∈ l, Q x) → P st → P (l.foldl f st) := by
  intro l
  induction l with
  | nil => intro st _ h; exact h
  | cons x rest ih =>
    intro st hq h
    exact ih (f st x) (fun y hy => hq y (List.mem_cons_of_mem x hy))
      (hstep st x (hq x (List.mem_cons_self x rest)) h)

theorem foldl_pres_uncond {α : Type} (f : St → α → St) (P : St → Prop)
    (hstep : ∀ st x, P st → P (f st x)) :
    ∀ (l : List α) (st : St), P st → P (l.foldl f st) := by
  intro l
  induction l with
  | nil => intro st h; exact h
  | cons x rest ih => intro st h; exact ih (f st x) (hstep st x h)

theorem foldl_estab {α : Type} (f : St → α → St) (P : St → Prop) (Q : α → Prop)
    (hpres : ∀ st x, P st → P (f st x))
    (hest : ∀ st x, Q x → P (f st x)) :
    ∀ (l : List α) (st : St), (∃ x ∈ l, Q x) → P (l.foldl f st) := by
  intro l
  induction l with
  | nil =>
    intro st h
    rcases h with ⟨x, hx, _⟩
    simp at hx
  | cons y rest ih =>
    intro st h
    rcases h with ⟨x, hx, hq⟩
    rcases List.mem_cons.mp hx with heq | hmem
    · exact foldl_pres_uncond f P hpres rest (f st y) (hest st y (heq ▸ hq))
    · exact ih (f st y) ⟨x, hmem, hq⟩

theorem finalizeSess_frame (bs : Nat) (st : St) :
    (finalizeSess bs st).mapping = st.mapping ∧ (finalizeSess bs st).log = st.log := by
  unfold finalizeSess
  constructor <;> (split <;> rfl)

theorem finalizeEvt_frame (bs : Nat) (st : St) :
    (finalizeEvt bs st).mapping = st.mapping ∧ (finalizeEvt bs st).log = st.log := by
  unfold finalizeEvt
  constructor <;> (split <;> rfl)

theorem finalize_frame (bs : Nat) (st : St) :
    (finalize bs st).mapping = st.mapping ∧ (finalize bs st).log = st.log := by
  unfold finalize
  exact ⟨(finalizeEvt_frame bs _).1.trans (finalizeSess_frame bs st).1,
    (finalizeEvt_frame bs _).2.trans (finalizeSess_frame bs st).2⟩

/-- The visits of a run are well-formed for session creation when every
one carries its first-action timestamp, as §3's data model requires. -/
def wfSessions (chunks : List (String × List Visit)) : Bool :=
  chunks.all (fun c => c.2.all (fun v => v.firstActionTimestamp.isSome))

/-- Does any chunk contain a visit with the given source id? -/
def occursVisit (id : String) (chunks : List (String × List Visit)) : Bool :=
  chunks.any (fun c => c.2.any (fun v => v.idVisit == id))

theorem processChunk_inv (L : Libs) (bs : Nat) (wid : String) (st : St)
    (c : String × List Visit)
    (hq : c.2.all (fun v => v.firstActionTimestamp.isSome) = true)
    (hinv : Inv L st) : Inv L (processChunk L bs wid st c) := by
  unfold processChunk
  apply foldl_pres (processVisit L bs wid c.1) (Inv L)
    (fun v => v.firstActionTimestamp.isSome = true)
    (fun st v hv hi => processVisit_inv L bs wid c.1 st v hv hi)
    c.2 st (List.all_eq_true.mp hq) hinv

theorem migrate_inv (L : Libs) (bs : Nat) (wid : String)
    (chunks : List (String × List Visit)) (hwf : wfSessions chunks = true) :
    Inv L (migrate L bs wid chunks) := by
  have hfold : Inv L (chunks.foldl (processChunk L bs wid) initSt) := by
    apply foldl_pres (processChunk L bs wid) (Inv L)
      (fun c => c.2.all (fun v => v.firstActionTimestamp.isSome) = true)
      (fun st c hq hi => processChunk_inv L bs wid st c hq hi)
      chunks initSt (List.all_eq_true.mp hwf) (Inv_init L)
  have hfin := finalize_frame bs (chunks.foldl (processChunk L bs wid) initSt)
  exact Inv_of_same L _ _ hfin.1 hfin.2 hfold

theorem processChunk_mono (L : Libs) (bs : Nat) (wid : String) (id : String)
    (st : St) (c : String × List Visit)
    (h : (mpLookup id st.mapping).isSome) :
    (mpLookup id (processChunk L bs wid st c).mapping).isSome := by
  unfold processChunk
  apply foldl_pres_uncond (processVisit L bs wid c.1)
    (fun st => (mpLookup id st.mapping).isSome = true)
    (fun st v hs => processVisit_mono L bs wid c.1 st v id hs)
    c.2 st h

theorem processChunk_estab (L : Libs) (bs : Nat) (wid : String) (id : String)
    (st : St) (c : String × List Visit)
    (h : ∃ v ∈ c.2, v.idVisit = id) :
    (mpLookup id (processChunk L bs wid st c).mapping).isSome := by
  unfold processChunk
  apply foldl_estab (processVisit L bs wid c.1)
    (fun st => (mpLookup id st.mapping).isSome = true)
    (fun v => v.idVisit = id)
    (fun st v hs => processVisit_mono L bs wid c.1 st v id hs)
    (fun st v hv => by rw [← hv]; exact processVisit_self L bs wid c.1 st v)
    c.2 st h

theorem migrate_lookup (L : Libs) (bs : Nat) (wid : String)
    (chunks : List (String × List Visit)) (id : String)
    (hocc : occursVisit id chunks = true) :
    (mpLookup id (migrate L bs wid chunks).mapping).isSome := by
  have hfold : (mpLookup id
      ((chunks.foldl (processChunk L bs wid) initSt)).mapping).isSome := by
    apply foldl_estab (processChunk L bs wid)
      (fun st => (mpLookup id st.mapping).isSome = true)
      (fun c => ∃ v ∈ c.2, v.idVisit = id)
      (fun st c hs => processChunk_mono L bs wid id st c hs)
      (fun st c hex => processChunk_estab L bs wid id st c hex)
      chunks initSt
    rcases List.any_eq_true.mp hocc with ⟨c, hc, hc2⟩
    rcases List.any_eq_true.mp hc2 with ⟨v, hv, hv2⟩
    exact ⟨c, hc, v, hv, by simpa using hv2⟩
  unfold migrate
  rw [(finalize_frame bs _).1]
  exact hfold

/-- C1: within one run, no matter how often a source visit identifier
appears within or across chunks, exactly one Session row is appended
to the session batch for it, and every Event row produced from any of
those visits carries the session id derived as
`generate_uuid("session_" + id)` in its session cell.  Visits are
assumed well-formed per the §3 data model (they carry a first-action
timestamp). -/
theorem session_dedup_contract (L : Libs) (bs : Nat) (wid : String)
    (chunks : List (String × List Visit)) (hwf : wfSessions chunks = true) :
    (∀ id, occursVisit id chunks = true →
        countSess id (migrate L bs wid chunks).log = 1)
    ∧ (∀ id row, LogEntry.evt id row ∈ (migrate L bs wid chunks).log →
        row[2]? = some (safe_sql_value
          (.strV (generate_uuid L 0 (some ("session_" ++ id))).1))) := by
  obtain ⟨hmap, hcount, hsessrow, hevtrow, hord⟩ := migrate_inv L bs wid chunks hwf
  constructor
  · intro id hocc
    rw [hcount id]
    have hlk := migrate_lookup L bs wid chunks id hocc
    simp [hlk]
  · intro id row hmem
    have hcell := hevtrow id row hmem
    rw [generate_uuid_session L 0 id]
    exact hcell

/-- C3: in every run over well-formed visits, each Event enqueue is
strictly preceded in the enqueue order by the Session enqueue carrying
the same source visit id, and that session row's id cell equals the
event row's session cell. -/
theorem session_before_event_contract (L : Libs) (bs : Nat) (wid : String)
    (chunks : List (String × List Visit)) (hwf : wfSessions chunks = true) :
    ∀ (i : Nat) (id : String) (row : Row),
    (migrate L bs wid chunks).log[i]? = some (.evt id row) →
    ∃ j, j < i ∧ ∃ row2, (migrate L bs wid chunks).log[j]? = some (.sess id row2)
      ∧ row2.head? = row[2]? := by
  obtain ⟨hmap, hcount, hsessrow, hevtrow, hord⟩ := migrate_inv L bs wid chunks hwf
  intro i id row hi
  rcases orderAux_getElem _ [] hord i id row hi with ⟨j, hj, row2, hget⟩ | habs
  · refine ⟨j, hj, row2, hget, ?_⟩
    have h1 := hsessrow id row2 (mem_of_getElem? _ j _ hget)
    have h2 := hevtrow id row (mem_of_getElem? _ i _ hi)
    rw [h1, h2]
  · simp at habs

/-- The run the C1 and C3 witnesses inspect: the same visit (id 9, one
pageview action) appears in two different date-range chunks. -/
def chunksW : List (String × List Visit) :=
  [("2024-01-01", [vW10]), ("2024-01-02", [vW10])]

/-- Closed instance of C1's hypotheses: visit id 9 appears in two
chunks of the run yet exactly one session row is appended. -/
theorem session_dedup_contract_witness :
    wfSessions chunksW = true
    ∧ occursVisit "9" chunksW = true
    ∧ countSess "9" (migrate L0 1000 "w" chunksW).log = 1 :=
  ⟨by decide, by decide,
   (session_dedup_contract L0 1000 "w" chunksW (by decide)).1 "9" (by decide)⟩

/-- Enqueue log of the witness run. -/
def logW : List LogEntry := (migrate L0 1000 "w" chunksW).log

/-- The first event row of the witness run. -/
def rowEvtW : Row :=
  match logW[1]? with
  | some (LogEntry.evt _ r) => r
  | _ => []

/-- Closed instance of C3's hypotheses: the event enqueued at position
1 of the witness run is preceded by its session enqueue. -/
theorem session_before_event_contract_witness :
    logW[1]? = some (.evt "9" rowEvtW)
    ∧ ∃ j, j < 1 ∧ ∃ row2, logW[j]? = some (.sess "9" row2)
      ∧ row2.head? = rowEvtW[2]? := by
  have h : logW[1]? = some (.evt "9" rowEvtW) := by rfl
  exact ⟨h, session_before_event_contract L0 1000 "w" chunksW (by decide) 1 "9" rowEvtW h⟩

end M2U
